import Mathlib

/-!
Verification of BBarolo's parameter guesser (`src/Utilities/paramguess.cpp`)
and source-finder object machinery (`src/Map/object2D.cpp`,
`src/Map/objectgrower.cpp`, `Object3D.cc`) against its specification.

Machine floating-point values are modelled as exact rationals (`ℚ`);
machine integers (`int`, `long`) as `ℤ`.  Trigonometric quantities
(`sin`, `acos`, `sqrt`) are kept at the statement level over `ℝ`, or the
machine trigonometric routine is abstracted as an explicit functional
parameter, so that every definition stays executable.
-/

/-- C's `lround`: round to nearest integer, halfway cases away from zero.
Used by `paramguess.cpp` both for sampling lines on the velocity field and
for the ring count `nrings = lround(Rmax/radsep)`. -/
def lroundQ (q : ℚ) : ℤ := if 0 ≤ q then ⌊q + 1/2⌋ else ⌈q - 1/2⌉

/-- The inclusive integer range `[a..b]`, the index set of a C loop
`for (x=a; x<=b; x++)`. -/
def intRange (a b : ℤ) : List ℤ :=
  (List.range (b + 1 - a).toNat).map (fun i : ℕ => a + (i : ℤ))

theorem lroundQ_eq_of_nonneg (q : ℚ) (n : ℤ) (h0 : 0 ≤ q)
    (h1 : (n : ℚ) ≤ q + 1/2) (h2 : q + 1/2 < n + 1) : lroundQ q = n := by
  rw [lroundQ, if_pos h0]
  exact Int.floor_eq_iff.mpr ⟨h1, h2⟩

theorem lroundQ_eq_of_neg (q : ℚ) (n : ℤ) (h0 : ¬ 0 ≤ q)
    (h1 : (n : ℚ) - 1 < q - 1/2) (h2 : q - 1/2 ≤ n) : lroundQ q = n := by
  rw [lroundQ, if_neg h0]
  exact Int.ceil_eq_iff.mpr ⟨by exact_mod_cast h1, h2⟩

theorem mem_intRange {a b x : ℤ} : x ∈ intRange a b ↔ a ≤ x ∧ x ≤ b := by
  unfold intRange
  constructor
  · intro hx
    obtain ⟨i, hi, hxi⟩ := List.mem_map.mp hx
    rw [List.mem_range] at hi
    subst hxi
    omega
  · intro h
    apply List.mem_map.mpr
    exact ⟨(x - a).toNat, List.mem_range.mpr (by omega), by omega⟩

/-! ### Header data and ring spacing (claim C3)

`ParamGuess` reads three header quantities: the beam major axis `Bmaj()`
(in the angular units of `Cunit(0)`), the pixel scale `PixScale()` (same
units) and the unit-conversion factor `arcsconv(Cunit(0))` to arcseconds. -/

structure GuessHeader where
  bmaj : ℚ
  pixScale : ℚ
  cunitConv : ℚ

/-- The `radsep` initialisation in the `ParamGuess<T>` constructor
(`paramguess.cpp:70`): `radsep = in->Head().Bmaj()*arcsconv(in->Head().Cunit(0))`.
Note that no pixel-scale factor appears. -/
def radsepInit (h : GuessHeader) : ℚ := h.bmaj * h.cunitConv

/-- `ParamGuess<T>::findRings` (`paramguess.cpp:386-394`): computes
`nrings = lround(Rmax/radsep)`; if that is below 5, `radsep` is halved once
and `nrings` recomputed.  Returns `(nrings, radsep)`. -/
def findRings (Rmax radsep : ℚ) : ℤ × ℚ :=
  if lroundQ (Rmax / radsep) < 5 then
    (lroundQ (Rmax / (radsep / 2)), radsep / 2)
  else
    (lroundQ (Rmax / radsep), radsep)

/-- C3 counterexample: with `Rmax = 1` and initial `radsep = 1`,
`findRings` returns `nrings = 2 < 5` even though two further halvings of
`radsep` would reach `nrings ≥ 5`, refuting the claim that the halving is
retried until `nrings ≥ 5` or no further halving helps.  Moreover the
initial `radsep` is `Bmaj · arcsconv(cunit)` with no pixel-scale factor:
on a header with `PixScale = 2` the claimed formula gives a different value. -/
theorem findRings_no_retry_cex :
    ¬ (5 ≤ (findRings 1 1).1 ∨
        ∀ k : ℕ, 1 ≤ k → lroundQ (1 / ((findRings 1 1).2 / 2 ^ k)) < 5) ∧
      radsepInit ⟨1, 2, 3600⟩ ≠ (1 : ℚ) * (2 * 3600) := by
  have h1 : lroundQ (1 : ℚ) = 1 :=
    lroundQ_eq_of_nonneg _ _ (by norm_num) (by norm_num) (by norm_num)
  have h2 : lroundQ (2 : ℚ) = 2 :=
    lroundQ_eq_of_nonneg _ _ (by norm_num) (by norm_num) (by norm_num)
  have h8 : lroundQ (8 : ℚ) = 8 :=
    lroundQ_eq_of_nonneg _ _ (by norm_num) (by norm_num) (by norm_num)
  have hq1 : (1 : ℚ) / 1 = 1 := by norm_num
  have hq2 : (1 : ℚ) / (1 / 2) = 2 := by norm_num
  have hfr : findRings 1 1 = (2, 1/2) := by
    rw [findRings, hq1, hq2, h1, h2]
    norm_num
  constructor
  · rw [hfr]
    push_neg
    refine ⟨by norm_num, 2, by norm_num, ?_⟩
    have hq8 : (1 : ℚ) / ((2, (1:ℚ)/2).2 / 2 ^ 2) = 8 := by norm_num
    rw [hq8, h8]
    norm_num
  · rw [radsepInit]
    norm_num

/-- C3 (amended): `findRings` halves `radsep` at most once.  On return,
`nrings` always equals `lround(Rmax/radsep_final)`; the final `radsep` is
the initial one when the initial ring count is at least 5, and exactly half
of it otherwise. -/
theorem findRings_halves_at_most_once (Rmax radsep : ℚ) :
    (findRings Rmax radsep).1 = lroundQ (Rmax / (findRings Rmax radsep).2) ∧
    (lroundQ (Rmax / radsep) < 5 → (findRings Rmax radsep).2 = radsep / 2) ∧
    (5 ≤ lroundQ (Rmax / radsep) →
      (findRings Rmax radsep).2 = radsep ∧ 5 ≤ (findRings Rmax radsep).1) := by
  unfold findRings
  by_cases h : lroundQ (Rmax / radsep) < 5
  · rw [if_pos h]
    exact ⟨rfl, fun _ => rfl, fun h5 => absurd h (by omega)⟩
  · rw [if_neg h]
    exact ⟨rfl, fun hlt => absurd hlt h, fun _ => ⟨rfl, by omega⟩⟩

/-! ### Rotation velocity (claim C7)

`ParamGuess<T>::findRotationVelocity` (`paramguess.cpp:117-123`):
`vrot = fabs(obj->getW50()/2.)/sin(inclin*M_PI/180.)`.  The value is
trigonometric, so the definition is a graph predicate over `ℝ`. -/

def findRotationVelocity (W50 inclin : ℚ) (vrot : ℝ) : Prop :=
  vrot = |(W50 : ℝ) / 2| / Real.sin ((inclin : ℝ) * Real.pi / 180)

/-- C7: for an inclination strictly between 0 and 180 degrees, the guessed
rotation velocity equals `W50 / (2 sin inc)` whenever `W50 ≥ 0`, and it is
non-negative for every `W50` (the code takes `fabs(W50/2)`). -/
theorem findRotationVelocity_w50_over_2sini (W50 inclin : ℚ) (vrot : ℝ)
    (hdef : findRotationVelocity W50 inclin vrot)
    (h0 : 0 < inclin) (h180 : inclin < 180) :
    (0 ≤ W50 → vrot = (W50 : ℝ) / (2 * Real.sin ((inclin : ℝ) * Real.pi / 180))) ∧
      0 ≤ vrot := by
  have hsin : 0 < Real.sin ((inclin : ℝ) * Real.pi / 180) := by
    apply Real.sin_pos_of_pos_of_lt_pi
    · have : (0 : ℝ) < (inclin : ℝ) := by exact_mod_cast h0
      positivity
    · have hlt : (inclin : ℝ) < 180 := by exact_mod_cast h180
      have hpi : 0 < Real.pi := Real.pi_pos
      have h1 : (inclin : ℝ) * Real.pi < 180 * Real.pi := by nlinarith
      linarith
  constructor
  · intro hW
    rw [hdef, abs_of_nonneg (by positivity : (0:ℝ) ≤ (W50 : ℝ) / 2)]
    rw [div_div]
  · rw [hdef]
    positivity

/-- C7 witness at `W50 = 10`, `inclin = 90`: the code value is `5`. -/
theorem findRotationVelocity_w50_over_2sini_witness :
    findRotationVelocity 10 90 5 ∧ (0:ℚ) < 90 ∧ (90:ℚ) < 180 ∧
      ((0 ≤ (10:ℚ) →
          (5:ℝ) = (10 : ℝ) / (2 * Real.sin (((90:ℚ) : ℝ) * Real.pi / 180))) ∧
        0 ≤ (5:ℝ)) := by
  have hangle : ((90:ℚ) : ℝ) * Real.pi / 180 = Real.pi / 2 := by
    push_cast
    ring
  have hdef : findRotationVelocity 10 90 5 := by
    rw [findRotationVelocity, hangle, Real.sin_pi_div_two]
    norm_num
  exact ⟨hdef, by norm_num, by norm_num,
    findRotationVelocity_w50_over_2sini 10 90 5 hdef (by norm_num) (by norm_num)⟩

/-! ### Scans and 2D objects (`src/Map/object2D.cpp`)

`PixelInfo::Scan` is a horizontal run of pixels.  `scan.cpp` is not among
the provided sources, so the `Scan` accessors and the scan-merging used by
`Object2D` are modelled from the spec's description of detections as sets
of horizontal runs, consistently with every use in `object2D.cpp`. -/

namespace PixelInfo

structure Scan where
  itsY : ℤ
  itsX : ℤ
  itsXLen : ℤ
deriving DecidableEq

/-- `Scan::getXmax()`: last x-coordinate of the run. -/
def Scan.getXmax (s : Scan) : ℤ := s.itsX + s.itsXLen - 1

/-- `Scan::isInScan(x,y)`: the pixel lies on the run. -/
def Scan.isInScan (s : Scan) (x y : ℤ) : Prop :=
  y = s.itsY ∧ s.itsX ≤ x ∧ x ≤ s.getXmax

instance (s : Scan) (x y : ℤ) : Decidable (s.isInScan x y) := by
  unfold Scan.isInScan
  infer_instance

/-- `Scan::growLeft()`: extend the run one pixel to the left. -/
def Scan.growLeft (s : Scan) : Scan := ⟨s.itsY, s.itsX - 1, s.itsXLen + 1⟩

/-- `Scan::growRight()`: extend the run one pixel to the right. -/
def Scan.growRight (s : Scan) : Scan := ⟨s.itsY, s.itsX, s.itsXLen + 1⟩

/-- Modelled from the spec: two runs on the same row can be combined when
they touch or overlap (`Scan::addScan` returns `true` exactly then). -/
def Scan.mergeable (s1 s2 : Scan) : Prop :=
  s1.itsY = s2.itsY ∧ s2.itsX ≤ s1.getXmax + 1 ∧ s1.itsX ≤ s2.getXmax + 1

instance (s1 s2 : Scan) : Decidable (s1.mergeable s2) := by
  unfold Scan.mergeable
  infer_instance

/-- Modelled from the spec: the combination of two touching/overlapping
runs is the run spanning both. -/
def Scan.merge (s1 s2 : Scan) : Scan :=
  ⟨s1.itsY, min s1.itsX s2.itsX, max s1.getXmax s2.getXmax - min s1.itsX s2.itsX + 1⟩

/-- `Scan::addOffsets(xoff,yoff)`. -/
def Scan.addOffsets (s : Scan) (xoff yoff : ℤ) : Scan :=
  ⟨s.itsY + yoff, s.itsX + xoff, s.itsXLen⟩

/-- Modelled from the spec: the squared minimum Euclidean separation (in
pixels) between the pixel sets of two runs, the quantity whose square root
`minSep` (scan.cpp, not in the provided sources) returns. -/
def Scan.sepSq (s1 s2 : Scan) : ℤ :=
  let xdist : ℤ :=
    if s2.getXmax < s1.itsX then s1.itsX - s2.getXmax
    else if s1.getXmax < s2.itsX then s2.itsX - s1.getXmax
    else 0
  xdist ^ 2 + (s1.itsY - s2.itsY) ^ 2

/-- The comparison `minSep(s1,s2) < t` of `Object2D::isClose`, in
square-root-free form: `√d < t ↔ 0 < t ∧ d < t²`. -/
def Scan.minSepLt (s1 s2 : Scan) (t : ℚ) : Prop :=
  0 < t ∧ ((s1.sepSq s2 : ℚ) < t ^ 2)

instance (s1 s2 : Scan) (t : ℚ) : Decidable (s1.minSepLt s2 t) := by
  unfold Scan.minSepLt
  infer_instance

/-- The spec-level notion of strictly adjacent runs (`flagAdjacent` mode):
rows within one of each other and x-ranges touching or closer. -/
def Scan.adjacentScans (s1 s2 : Scan) : Prop :=
  |s1.itsY - s2.itsY| ≤ 1 ∧ s2.itsX ≤ s1.getXmax + 1 ∧ s1.itsX ≤ s2.getXmax + 1

instance (s1 s2 : Scan) : Decidable (s1.adjacentScans s2) := by
  unfold Scan.adjacentScans
  infer_instance

/-- `PixelInfo::Object2D`: a set of scans plus cached pixel count,
coordinate sums and bounding box. -/
structure Object2D where
  scanlist : List Scan
  numPix : ℤ
  xSum : ℤ
  ySum : ℤ
  xmin : ℤ
  xmax : ℤ
  ymin : ℤ
  ymax : ℤ
deriving DecidableEq

/-- The default-constructed `Object2D`: empty scan list, zero counters. -/
def emptyObject2D : Object2D := ⟨[], 0, 0, 0, 0, 0, 0, 0⟩

/-- `Object2D::isInObject(x,y)`: some scan contains the pixel. -/
def Object2D.isInObject (o : Object2D) (x y : ℤ) : Prop :=
  ∃ s ∈ o.scanlist, s.isInScan x y

instance (o : Object2D) (x y : ℤ) : Decidable (o.isInObject x y) := by
  unfold Object2D.isInObject
  infer_instance

/-- The first loop of `Object2D::addPixel` (`object2D.cpp:74-88`): walk the
scan list until the pixel is found inside a scan of the same row, or glued
to the left/right end of one; return the updated list with the
`flagDone`, `flagChanged` and `isNew` flags. -/
def scanPass (x y : ℤ) : List Scan → List Scan × Bool × Bool × Bool
  | [] => ([], false, false, false)
  | s :: rest =>
    if y = s.itsY then
      if s.isInScan x y then (s :: rest, true, false, false)
      else if x = s.itsX - 1 then (s.growLeft :: rest, true, true, true)
      else if x = s.itsX + s.itsXLen then (s.growRight :: rest, true, true, true)
      else
        let r := scanPass x y rest
        (s :: r.1, r.2)
    else
      let r := scanPass x y rest
      (s :: r.1, r.2)

/-- Inner loop of the combine phase of `addPixel` (`object2D.cpp:108-123`):
look for the first later scan of row `y` that merges with `s1`. -/
def combineInner (y : ℤ) (s1 : Scan) : List Scan → Option (Scan × List Scan)
  | [] => none
  | s2 :: rest =>
    if s2.itsY = y ∧ s1.mergeable s2 then some (s1.merge s2, rest)
    else
      match combineInner y s1 rest with
      | some (s1', rest') => some (s1', s2 :: rest')
      | none => none

/-- Outer loop of the combine phase: at most one pair of scans is combined. -/
def combineOuter (y : ℤ) : List Scan → List Scan
  | [] => []
  | s1 :: rest =>
    if s1.itsY = y then
      match combineInner y s1 rest with
      | some (s1', rest') => s1' :: rest'
      | none => s1 :: combineOuter y rest
    else s1 :: combineOuter y rest

/-- `Object2D::addPixel(x,y)` (`object2D.cpp:56-143`). -/
def Object2D.addPixel (o : Object2D) (x y : ℤ) : Object2D :=
  let r := scanPass x y o.scanlist
  let sl := r.1
  let done := r.2.1
  let changed := r.2.2.1
  let sl2 :=
    if ¬ done then sl ++ [⟨y, x, 1⟩]
    else if changed then combineOuter y sl
    else sl
  let isNew := (¬ done) ∨ r.2.2.2 = true
  if isNew then
    if o.numPix = 0 then
      { scanlist := sl2, numPix := 1, xSum := x, ySum := y,
        xmin := x, xmax := x, ymin := y, ymax := y }
    else
      { scanlist := sl2, numPix := o.numPix + 1, xSum := o.xSum + x, ySum := o.ySum + y,
        xmin := min o.xmin x, xmax := max o.xmax x,
        ymin := min o.ymin y, ymax := max o.ymax y }
  else
    { o with scanlist := sl2 }

/-- `Object2D::getNumDistinctY` (`object2D.cpp:210-227`). -/
def Object2D.getNumDistinctY (o : Object2D) : ℤ :=
  if o.scanlist.length = 0 then 0
  else if o.scanlist.length = 1 then 1
  else
    ((o.scanlist.foldl
      (fun yl s => if s.itsY ∈ yl then yl else yl ++ [s.itsY]) ([] : List ℤ)).length : ℤ)

/-- `Object2D::getNumDistinctX` (`object2D.cpp:230-248`).  Note the inner
loop `for(int x=scn->itsX; x<scn->getXmax(); x++)` runs only up to
`getXmax()-1`. -/
def Object2D.getNumDistinctX (o : Object2D) : ℤ :=
  if o.scanlist.length = 0 then 0
  else if o.scanlist.length = 1 then 1
  else
    ((o.scanlist.foldl
      (fun xl s =>
        (intRange s.itsX (s.getXmax - 1)).foldl
          (fun xl2 x => if x ∈ xl2 then xl2 else xl2 ++ [x]) xl)
      ([] : List ℤ)).length : ℤ)

/-- The number of distinct x-coordinates actually covered by the scans. -/
def Object2D.distinctXCount (o : Object2D) : ℤ :=
  (((o.scanlist.map (fun s => intRange s.itsX s.getXmax)).foldr
      (fun l acc => l ++ acc) []).dedup.length : ℤ)

/-- The number of distinct y-coordinates actually covered by the scans. -/
def Object2D.distinctYCount (o : Object2D) : ℤ :=
  ((o.scanlist.map (fun s => s.itsY)).dedup.length : ℤ)

/-- `Object2D::addOffsets(xoff,yoff)` (`object2D.cpp:261-270`). -/
def Object2D.addOffsets (o : Object2D) (xoff yoff : ℤ) : Object2D :=
  { scanlist := o.scanlist.map (fun s => s.addOffsets xoff yoff),
    numPix := o.numPix,
    xSum := o.xSum + xoff * o.numPix,
    ySum := o.ySum + yoff * o.numPix,
    xmin := o.xmin + xoff, xmax := o.xmax + xoff,
    ymin := o.ymin + yoff, ymax := o.ymax + yoff }

/-- `Object2D::isNear(other,gap)` (`object2D.cpp:342-354`). -/
def Object2D.isNear (o other : Object2D) (gap : ℤ) : Prop :=
  (if o.xmin - gap < other.xmin then other.xmin ≤ o.xmax + gap
   else o.xmin - gap ≤ other.xmax) ∧
  (if o.ymin - gap < other.ymin then other.ymin ≤ o.ymax + gap
   else o.ymin - gap ≤ other.ymax)

instance (o other : Object2D) (gap : ℤ) : Decidable (o.isNear other gap) := by
  unfold Object2D.isNear
  infer_instance

/-- `Object2D::isClose(other,threshS,flagAdj)` (`object2D.cpp:357-387`):
some pair of scans inside the common row window passes the per-pair test. -/
def Object2D.isClose (o other : Object2D) (threshS : ℚ) (flagAdj : Bool) : Prop :=
  let gap : ℤ := if flagAdj then 1 else ⌈threshS⌉
  let ycommonMin := max (o.ymin - gap) other.ymin - gap
  let ycommonMax := min (o.ymax + gap) other.ymax + gap
  ∃ s1 ∈ o.scanlist, ∃ s2 ∈ other.scanlist,
    ycommonMin ≤ s1.itsY ∧ s1.itsY ≤ ycommonMax ∧
    ycommonMin ≤ s2.itsY ∧ s2.itsY ≤ ycommonMax ∧
    |s1.itsY - s2.itsY| ≤ gap ∧
    (if flagAdj then
      (if s2.itsX < s1.itsX - gap then s1.itsX - gap ≤ s2.itsX + s2.itsXLen - 1
       else s2.itsX ≤ s1.itsX + s1.itsXLen + gap - 1)
     else s1.minSepLt s2 threshS)

instance (o other : Object2D) (threshS : ℚ) (flagAdj : Bool) :
    Decidable (o.isClose other threshS flagAdj) := by
  unfold Object2D.isClose
  infer_instance

/-- `Object2D::canMerge(other,threshS,flagAdj)` (`object2D.cpp:331-339`):
the bounding-box proximity prefilter followed by the scan-pair test. -/
def Object2D.canMerge (o other : Object2D) (threshS : ℚ) (flagAdj : Bool) : Prop :=
  o.isNear other (if flagAdj then 1 else ⌈threshS⌉) ∧ o.isClose other threshS flagAdj

instance (o other : Object2D) (threshS : ℚ) (flagAdj : Bool) :
    Decidable (o.canMerge other threshS flagAdj) := by
  unfold Object2D.canMerge
  infer_instance

/-- Scans all have at least one pixel and lie inside the cached bounding
box, and the scan list is non-empty: the shape every `Object2D` built by
the source finder has. -/
def Object2D.wellFormed (o : Object2D) : Prop :=
  o.scanlist ≠ [] ∧
  (∀ s ∈ o.scanlist, 1 ≤ s.itsXLen) ∧
  (∀ s ∈ o.scanlist,
    o.xmin ≤ s.itsX ∧ s.getXmax ≤ o.xmax ∧ o.ymin ≤ s.itsY ∧ s.itsY ≤ o.ymax)

instance (o : Object2D) : Decidable (o.wellFormed) := by
  unfold Object2D.wellFormed
  infer_instance

/-- No two scans of the same row touch or overlap: the normal form
`addPixel` maintains through its combine phase. -/
def Object2D.separatedRows (o : Object2D) : Prop :=
  o.scanlist.Pairwise
    (fun s1 s2 => s1.itsY = s2.itsY →
      (s2.getXmax + 1 < s1.itsX ∨ s1.getXmax + 1 < s2.itsX))

instance (o : Object2D) : Decidable (o.separatedRows) := by
  unfold Object2D.separatedRows
  exact List.instDecidablePairwise _

end PixelInfo

namespace PixelInfo

/-- C10 (code bug): `getNumDistinctX` returns 1 for any single-scan object
and otherwise skips each scan's last pixel (strict `<` against
`getXmax()`), so it does not return the number of distinct x-coordinates:
on the single scan `{y=0, x∈[0,2]}` it returns 1 instead of 3, and on the
two scans `{y=0, x∈[0,2]}`, `{y=1, x=5}` it returns 2 instead of 4.
`getNumDistinctY` does return the true count on the same objects. -/
theorem getNumDistinctX_undercounts :
    (Object2D.getNumDistinctX ⟨[⟨0, 0, 3⟩], 3, 3, 0, 0, 2, 0, 0⟩ = 1 ∧
      Object2D.distinctXCount ⟨[⟨0, 0, 3⟩], 3, 3, 0, 0, 2, 0, 0⟩ = 3) ∧
    (Object2D.getNumDistinctX ⟨[⟨0, 0, 3⟩, ⟨1, 5, 1⟩], 4, 8, 1, 0, 5, 0, 1⟩ = 2 ∧
      Object2D.distinctXCount ⟨[⟨0, 0, 3⟩, ⟨1, 5, 1⟩], 4, 8, 1, 0, 5, 0, 1⟩ = 4) ∧
    Object2D.getNumDistinctY ⟨[⟨0, 0, 3⟩], 3, 3, 0, 0, 2, 0, 0⟩ = 1 ∧
    Object2D.getNumDistinctY ⟨[⟨0, 0, 3⟩, ⟨1, 5, 1⟩], 4, 8, 1, 0, 5, 0, 1⟩ = 2 ∧
    Object2D.distinctYCount ⟨[⟨0, 0, 3⟩, ⟨1, 5, 1⟩], 4, 8, 1, 0, 5, 0, 1⟩ = 2 := by
  decide

/-! ### 3D objects (`Object3D.cc`, provided as `src/unnamed/part_002`)

The `std::map<long, Object2D>` from channel index to 2D object is modelled
as a key-sorted association list; the linear searches of `Object3D` walk
it front to back exactly as the C++ iterators do. -/

structure Object3D where
  chanlist : List (ℤ × Object2D)
  numVox : ℤ
  xSum : ℤ
  ySum : ℤ
  zSum : ℤ
  xmin : ℤ
  xmax : ℤ
  ymin : ℤ
  ymax : ℤ
  zmin : ℤ
  zmax : ℤ
deriving DecidableEq

/-- The default-constructed `Object3D` (`Object3D.cc:36-44`): no channels,
zero sums, and all bounding-box fields set to the sentinel `-1`. -/
def emptyObject3D : Object3D := ⟨[], 0, 0, 0, 0, -1, -1, -1, -1, -1, -1⟩

/-- The channel search `while(it!=chanlist.end() && it->first!=z) it++`. -/
def findChan : List (ℤ × Object2D) → ℤ → Option Object2D
  | [], _ => none
  | (z', o) :: rest, z => if z' = z then some o else findChan rest z

/-- Replace the value of the first entry with key `z` (the in-place
mutation `it->second.addPixel(x,y)` through the iterator found above). -/
def mapFirstChan (z : ℤ) (f : Object2D → Object2D) :
    List (ℤ × Object2D) → List (ℤ × Object2D)
  | [] => []
  | (z', o) :: rest =>
    if z' = z then (z', f o) :: rest else (z', o) :: mapFirstChan z f rest

/-- `std::map` insertion: place the new key at its sorted position. -/
def insertChanSorted (z : ℤ) (o2 : Object2D) :
    List (ℤ × Object2D) → List (ℤ × Object2D)
  | [] => [(z, o2)]
  | (z', o') :: rest =>
    if z < z' then (z, o2) :: (z', o') :: rest
    else (z', o') :: insertChanSorted z o2 rest

/-- `Object3D::isInObject(x,y,z)` (`Object3D.cc:107-114`). -/
def Object3D.isInObject (o : Object3D) (x y z : ℤ) : Prop :=
  match findChan o.chanlist z with
  | none => False
  | some ch => ch.isInObject x y

instance (o : Object3D) (x y z : ℤ) : Decidable (o.isInObject x y z) := by
  unfold Object3D.isInObject
  exact match findChan o.chanlist z with
    | none => inferInstanceAs (Decidable False)
    | some ch => inferInstanceAs (Decidable (ch.isInObject x y))

/-- `Object3D::addPixel(x,y,z)` (`Object3D.cc:117-171`). -/
def Object3D.addPixel (o : Object3D) (x y z : ℤ) : Object3D :=
  match findChan o.chanlist z with
  | none =>
    let obj2 := Object2D.addPixel emptyObject2D x y
    let newlist := insertChanSorted z obj2 o.chanlist
    if o.numVox = 0 then
      { chanlist := newlist, numVox := 1,
        xSum := x, ySum := y, zSum := z,
        xmin := x, xmax := x, ymin := y, ymax := y, zmin := z, zmax := z }
    else
      { chanlist := newlist, numVox := o.numVox + 1,
        xSum := o.xSum + x, ySum := o.ySum + y, zSum := o.zSum + z,
        xmin := min o.xmin x, xmax := max o.xmax x,
        ymin := min o.ymin y, ymax := max o.ymax y,
        zmin := ((newlist.head?.map Prod.fst).getD o.zmin),
        zmax := ((newlist.getLast?.map Prod.fst).getD o.zmax) }
  | some ch =>
    let ch2 := ch.addPixel x y
    { chanlist := mapFirstChan z (fun c => c.addPixel x y) o.chanlist,
      numVox := o.numVox - ch.numPix + ch2.numPix,
      xSum := o.xSum - ch.xSum + ch2.xSum,
      ySum := o.ySum - ch.ySum + ch2.ySum,
      zSum := o.zSum - z * ch.numPix + z * ch2.numPix,
      xmin := min o.xmin x, xmax := max o.xmax x,
      ymin := min o.ymin y, ymax := max o.ymax y,
      zmin := o.zmin, zmax := o.zmax }

/-- `Object3D::addOffsets(xoff,yoff,zoff)` (`Object3D.cc:411-430`): every
channel key and 2D object is shifted; the cached statistics only when the
object holds at least one voxel. -/
def Object3D.addOffsets (o : Object3D) (xoff yoff zoff : ℤ) : Object3D :=
  let newmap := o.chanlist.map (fun p => (p.1 + zoff, p.2.addOffsets xoff yoff))
  if 0 < o.numVox then
    { chanlist := newmap, numVox := o.numVox,
      xSum := o.xSum + xoff * o.numVox,
      ySum := o.ySum + yoff * o.numVox,
      zSum := o.zSum + zoff * o.numVox,
      xmin := o.xmin + xoff, xmax := o.xmax + xoff,
      ymin := o.ymin + yoff, ymax := o.ymax + yoff,
      zmin := o.zmin + zoff, zmax := o.zmax + zoff }
  else
    { o with chanlist := newmap }

end PixelInfo

namespace PixelInfo

theorem findChan_map_shift (l : List (ℤ × Object2D)) (zoff z xoff yoff : ℤ) :
    findChan (l.map (fun p => (p.1 + zoff, p.2.addOffsets xoff yoff))) (z + zoff) =
      (findChan l z).map (fun c => c.addOffsets xoff yoff) := by
  induction l with
  | nil => rfl
  | cons p rest ih =>
    obtain ⟨z', o⟩ := p
    simp only [List.map_cons, findChan]
    by_cases h : z' = z
    · rw [if_pos (by omega), if_pos h]
      rfl
    · rw [if_neg (by omega), if_neg h]
      exact ih

theorem isInScan_addOffsets (s : Scan) (xoff yoff x y : ℤ) :
    (s.addOffsets xoff yoff).isInScan (x + xoff) (y + yoff) ↔ s.isInScan x y := by
  obtain ⟨sy, sx, sl⟩ := s
  simp only [Scan.isInScan, Scan.addOffsets, Scan.getXmax]
  omega

theorem isInObject2_addOffsets (o : Object2D) (xoff yoff x y : ℤ) :
    (o.addOffsets xoff yoff).isInObject (x + xoff) (y + yoff) ↔ o.isInObject x y := by
  unfold Object2D.isInObject Object2D.addOffsets
  dsimp only
  simp only [List.mem_map]
  constructor
  · rintro ⟨s, ⟨s0, hs0, rfl⟩, hin⟩
    exact ⟨s0, hs0, (isInScan_addOffsets s0 xoff yoff x y).mp hin⟩
  · rintro ⟨s0, hs0, hin⟩
    exact ⟨s0.addOffsets xoff yoff, ⟨s0, hs0, rfl⟩,
      (isInScan_addOffsets s0 xoff yoff x y).mpr hin⟩

/-- C9 counterexample: translating the empty `Object3D` by `(1,2,3)` does
not shift its (sentinel) bounding box, refuting the claim for every
`Object3D`: the statistics update of `addOffsets` is guarded by
`numVox > 0`. -/
theorem addOffsets_empty_bbox_cex :
    (emptyObject3D.addOffsets 1 2 3).xmin ≠ emptyObject3D.xmin + 1 := by
  decide

/-- C9 (amended): for every `Object3D` holding at least one voxel,
`addOffsets` shifts membership, bounding box, and the coordinate sums by
exactly the offset vector, and leaves the voxel count unchanged. -/
theorem addOffsets_translation (o : Object3D) (xoff yoff zoff : ℤ)
    (hnv : 0 < o.numVox) :
    (∀ x y z : ℤ,
      (o.addOffsets xoff yoff zoff).isInObject (x + xoff) (y + yoff) (z + zoff) ↔
        o.isInObject x y z) ∧
    (o.addOffsets xoff yoff zoff).numVox = o.numVox ∧
    (o.addOffsets xoff yoff zoff).xmin = o.xmin + xoff ∧
    (o.addOffsets xoff yoff zoff).xmax = o.xmax + xoff ∧
    (o.addOffsets xoff yoff zoff).ymin = o.ymin + yoff ∧
    (o.addOffsets xoff yoff zoff).ymax = o.ymax + yoff ∧
    (o.addOffsets xoff yoff zoff).zmin = o.zmin + zoff ∧
    (o.addOffsets xoff yoff zoff).zmax = o.zmax + zoff ∧
    (o.addOffsets xoff yoff zoff).xSum = o.xSum + xoff * o.numVox ∧
    (o.addOffsets xoff yoff zoff).ySum = o.ySum + yoff * o.numVox ∧
    (o.addOffsets xoff yoff zoff).zSum = o.zSum + zoff * o.numVox := by
  have hchan : (o.addOffsets xoff yoff zoff).chanlist =
      o.chanlist.map (fun p => (p.1 + zoff, p.2.addOffsets xoff yoff)) := by
    unfold Object3D.addOffsets
    rw [if_pos hnv]
  have hmem : ∀ x y z : ℤ,
      (o.addOffsets xoff yoff zoff).isInObject (x + xoff) (y + yoff) (z + zoff) ↔
        o.isInObject x y z := by
    intro x y z
    unfold Object3D.isInObject
    rw [hchan, findChan_map_shift]
    cases hfc : findChan o.chanlist z with
    | none => simp
    | some ch =>
      simp only [Option.map_some]
      exact isInObject2_addOffsets ch xoff yoff x y
  refine ⟨hmem, ?_⟩
  unfold Object3D.addOffsets
  rw [if_pos hnv]
  refine ⟨rfl, rfl, rfl, rfl, rfl, rfl, rfl, rfl, rfl, rfl⟩

/-- C9 witness: a one-voxel object at `(0,0,0)`, translated by `(1,2,3)`. -/
theorem addOffsets_translation_witness :
    0 < (Object3D.numVox ⟨[(0, ⟨[⟨0, 0, 1⟩], 1, 0, 0, 0, 0, 0, 0⟩)],
        1, 0, 0, 0, 0, 0, 0, 0, 0, 0⟩) ∧
    (∀ x y z : ℤ,
      (Object3D.addOffsets ⟨[(0, ⟨[⟨0, 0, 1⟩], 1, 0, 0, 0, 0, 0, 0⟩)],
          1, 0, 0, 0, 0, 0, 0, 0, 0, 0⟩ 1 2 3).isInObject (x + 1) (y + 2) (z + 3) ↔
        (Object3D.isInObject ⟨[(0, ⟨[⟨0, 0, 1⟩], 1, 0, 0, 0, 0, 0, 0⟩)],
          1, 0, 0, 0, 0, 0, 0, 0, 0, 0⟩ x y z)) := by
  constructor
  · decide
  · exact (addOffsets_translation
      ⟨[(0, ⟨[⟨0, 0, 1⟩], 1, 0, 0, 0, 0, 0, 0⟩)], 1, 0, 0, 0, 0, 0, 0, 0, 0, 0⟩
      1 2 3 (by decide)).1

end PixelInfo

namespace PixelInfo

theorem isInScan_iff (s : Scan) (x y : ℤ) :
    s.isInScan x y ↔ y = s.itsY ∧ s.itsX ≤ x ∧ x ≤ s.itsX + s.itsXLen - 1 :=
  Iff.rfl

theorem scanPass_noop (x y : ℤ) (l : List Scan)
    (hlen : ∀ s ∈ l, 1 ≤ s.itsXLen)
    (hsep : l.Pairwise (fun s1 s2 => s1.itsY = s2.itsY →
      (s2.getXmax + 1 < s1.itsX ∨ s1.getXmax + 1 < s2.itsX)))
    (hin : ∃ s ∈ l, s.isInScan x y) :
    scanPass x y l = (l, true, false, false) := by
  induction l with
  | nil =>
    obtain ⟨s, hs, _⟩ := hin
    exact absurd hs (List.not_mem_nil s)
  | cons s rest ih =>
    rw [List.pairwise_cons] at hsep
    obtain ⟨hsep1, hsep2⟩ := hsep
    obtain ⟨s', hs', hin'⟩ := hin
    by_cases hy : y = s.itsY
    · by_cases hinS : s.isInScan x y
      · unfold scanPass
        rw [if_pos hy, if_pos hinS]
      · have hs'rest : s' ∈ rest := by
          rcases List.mem_cons.mp hs' with h | h
          · exact absurd (h ▸ hin') hinS
          · exact h
        have hyS' := (isInScan_iff s' x y).mp hin'
        have hgap := hsep1 s' hs'rest (by rw [← hy, hyS'.1])
        have hlenS : 1 ≤ s.itsXLen := hlen s (List.mem_cons_self s rest)
        have hlenS' : 1 ≤ s'.itsXLen := hlen s' (List.mem_cons.mpr (Or.inr hs'rest))
        unfold scanPass
        rw [if_pos hy, if_neg hinS]
        have hnotleft : ¬ x = s.itsX - 1 := by
          unfold Scan.getXmax at hgap
          obtain ⟨_, h1, h2⟩ := hyS'
          omega
        have hnotright : ¬ x = s.itsX + s.itsXLen := by
          unfold Scan.getXmax at hgap
          obtain ⟨_, h1, h2⟩ := hyS'
          omega
        rw [if_neg hnotleft, if_neg hnotright,
          ih (fun t ht => hlen t (List.mem_cons.mpr (Or.inr ht))) hsep2
            ⟨s', hs'rest, hin'⟩]
    · have hs'rest : s' ∈ rest := by
        rcases List.mem_cons.mp hs' with h | h
        · exact absurd ((isInScan_iff s' x y).mp (h ▸ hin')).1 (h ▸ hy)
        · exact h
      unfold scanPass
      rw [if_neg hy,
        ih (fun t ht => hlen t (List.mem_cons.mpr (Or.inr ht))) hsep2
          ⟨s', hs'rest, hin'⟩]

theorem addPixel2_noop (o : Object2D) (x y : ℤ)
    (hlen : ∀ s ∈ o.scanlist, 1 ≤ s.itsXLen)
    (hsep : o.separatedRows)
    (hin : o.isInObject x y) :
    o.addPixel x y = o := by
  have hpass := scanPass_noop x y o.scanlist hlen hsep hin
  unfold Object2D.addPixel
  rw [hpass]
  simp

theorem mapFirstChan_congr_noop (z : ℤ) (f : Object2D → Object2D)
    (l : List (ℤ × Object2D)) (ch : Object2D)
    (hfind : findChan l z = some ch) (hf : f ch = ch) :
    mapFirstChan z f l = l := by
  induction l with
  | nil => exact absurd hfind (by simp [findChan])
  | cons p rest ih =>
    obtain ⟨z', o⟩ := p
    unfold findChan at hfind
    unfold mapFirstChan
    by_cases h : z' = z
    · rw [if_pos h] at hfind ⊢
      have : o = ch := by injection hfind
      rw [this, hf]
    · rw [if_neg h] at hfind ⊢
      rw [ih hfind]

/-- C8: adding a pixel that is already contained in a (well-separated)
`Object2D`, or a voxel already contained in an `Object3D` whose bounding
box covers it, is a no-op: the scan lists, the pixel/voxel counts, the
coordinate sums and the bounding boxes are all left unchanged. -/
theorem addPixel_existing_noop
    (o : Object2D) (x y : ℤ)
    (hlen : ∀ s ∈ o.scanlist, 1 ≤ s.itsXLen)
    (hsep : o.separatedRows)
    (hin : o.isInObject x y)
    (o3 : Object3D) (x3 y3 z3 : ℤ) (ch : Object2D)
    (hfind : findChan o3.chanlist z3 = some ch)
    (hchlen : ∀ s ∈ ch.scanlist, 1 ≤ s.itsXLen)
    (hchsep : ch.separatedRows)
    (hchin : ch.isInObject x3 y3)
    (hx1 : o3.xmin ≤ x3) (hx2 : x3 ≤ o3.xmax)
    (hy1 : o3.ymin ≤ y3) (hy2 : y3 ≤ o3.ymax) :
    o.addPixel x y = o ∧ o3.addPixel x3 y3 z3 = o3 := by
  refine ⟨addPixel2_noop o x y hlen hsep hin, ?_⟩
  have hch2 : ch.addPixel x3 y3 = ch := addPixel2_noop ch x3 y3 hchlen hchsep hchin
  obtain ⟨cl, nv, xs, ys, zs, a0, a1, b0, b1, c0, c1⟩ := o3
  unfold Object3D.addPixel
  dsimp only at hfind hx1 hx2 hy1 hy2 ⊢
  rw [hfind]
  dsimp only
  rw [mapFirstChan_congr_noop z3 _ cl ch hfind hch2, hch2]
  have e1 : nv - ch.numPix + ch.numPix = nv := by omega
  have e2 : xs - ch.xSum + ch.xSum = xs := by omega
  have e3 : ys - ch.ySum + ch.ySum = ys := by omega
  have e4 : zs - z3 * ch.numPix + z3 * ch.numPix = zs := by omega
  have e5 : min a0 x3 = a0 := min_eq_left hx1
  have e6 : max a1 x3 = a1 := max_eq_left hx2
  have e7 : min b0 y3 = b0 := min_eq_left hy1
  have e8 : max b1 y3 = b1 := max_eq_left hy2
  rw [e1, e2, e3, e4, e5, e6, e7, e8]

end PixelInfo

namespace PixelInfo

theorem minSepLt_bounds (s1 s2 : Scan) (t : ℚ)
    (hlen1 : 1 ≤ s1.itsXLen) (hlen2 : 1 ≤ s2.itsXLen)
    (h : s1.minSepLt s2 t) :
    1 ≤ ⌈t⌉ ∧ |s1.itsY - s2.itsY| ≤ ⌈t⌉ ∧
    s1.itsX ≤ s2.getXmax + ⌈t⌉ ∧ s2.itsX ≤ s1.getXmax + ⌈t⌉ := by
  obtain ⟨ht, hd⟩ := h
  have hgap0 : 0 < ⌈t⌉ := Int.ceil_pos.mpr ht
  have htle : t ≤ (⌈t⌉ : ℚ) := Int.le_ceil t
  have htsq : t ^ 2 ≤ ((⌈t⌉ : ℤ) : ℚ) ^ 2 := by nlinarith
  have hdZ : s1.sepSq s2 < ⌈t⌉ ^ 2 := by
    have : ((s1.sepSq s2 : ℤ) : ℚ) < ((⌈t⌉ : ℤ) : ℚ) ^ 2 := lt_of_lt_of_le hd htsq
    exact_mod_cast this
  unfold Scan.sepSq at hdZ
  dsimp only at hdZ
  have hysq : (s1.itsY - s2.itsY) ^ 2 < ⌈t⌉ ^ 2 := by
    have h0 : (0:ℤ) ≤ (if s2.getXmax < s1.itsX then s1.itsX - s2.getXmax
      else if s1.getXmax < s2.itsX then s2.itsX - s1.getXmax else 0) ^ 2 := sq_nonneg _
    linarith
  have hyabs : |s1.itsY - s2.itsY| < ⌈t⌉ := abs_lt_of_sq_lt_sq hysq (by omega)
  refine ⟨by omega, by omega, ?_, ?_⟩
  · by_cases hc1 : s2.getXmax < s1.itsX
    · rw [if_pos hc1] at hdZ
      have hxsq : (s1.itsX - s2.getXmax) ^ 2 < ⌈t⌉ ^ 2 := by
        have h0 : (0:ℤ) ≤ (s1.itsY - s2.itsY) ^ 2 := sq_nonneg _
        linarith
      have := abs_lt_of_sq_lt_sq hxsq (by omega)
      have h2 := abs_lt.mp this
      omega
    · omega
  · by_cases hc2 : s1.getXmax < s2.itsX
    · have hc1 : ¬ s2.getXmax < s1.itsX := by
        unfold Scan.getXmax at hc2 ⊢
        omega
      rw [if_neg hc1, if_pos hc2] at hdZ
      have hxsq : (s2.itsX - s1.getXmax) ^ 2 < ⌈t⌉ ^ 2 := by
        have h0 : (0:ℤ) ≤ (s1.itsY - s2.itsY) ^ 2 := sq_nonneg _
        linarith
      have := abs_lt_of_sq_lt_sq hxsq (by omega)
      have h2 := abs_lt.mp this
      omega
    · omega

theorem wellFormed_bounds (o : Object2D) (ho : o.wellFormed) (s : Scan)
    (hs : s ∈ o.scanlist) :
    1 ≤ s.itsXLen ∧ o.xmin ≤ s.itsX ∧ s.getXmax ≤ o.xmax ∧
      o.ymin ≤ s.itsY ∧ s.itsY ≤ o.ymax := by
  obtain ⟨-, hlen, hbox⟩ := ho
  obtain ⟨h1, h2, h3, h4⟩ := hbox s hs
  exact ⟨hlen s hs, h1, h2, h3, h4⟩

/-- Core of the backward direction of C6: a close pair of scans forces the
bounding-box prefilter `isNear` to pass and lies inside the common-row
window of `isClose`. -/
theorem closePair_near (o other : Object2D) (gap : ℤ) (hgap : 1 ≤ gap)
    (ho : o.wellFormed) (hother : other.wellFormed)
    (s1 : Scan) (hs1 : s1 ∈ o.scanlist) (s2 : Scan) (hs2 : s2 ∈ other.scanlist)
    (hdy : |s1.itsY - s2.itsY| ≤ gap)
    (hx1 : s1.itsX ≤ s2.getXmax + gap) (hx2 : s2.itsX ≤ s1.getXmax + gap) :
    o.isNear other gap ∧
    max (o.ymin - gap) other.ymin - gap ≤ s1.itsY ∧
    s1.itsY ≤ min (o.ymax + gap) other.ymax + gap ∧
    max (o.ymin - gap) other.ymin - gap ≤ s2.itsY ∧
    s2.itsY ≤ min (o.ymax + gap) other.ymax + gap := by
  obtain ⟨hl1, hb1, hb2, hb3, hb4⟩ := wellFormed_bounds o ho s1 hs1
  obtain ⟨hl2, hc1, hc2, hc3, hc4⟩ := wellFormed_bounds other hother s2 hs2
  unfold Scan.getXmax at hx1 hx2 hb2 hc2
  rw [abs_le] at hdy
  have hm1 : max (o.ymin - gap) other.ymin ≤ s1.itsY + gap := max_le (by omega) (by omega)
  have hm2 : max (o.ymin - gap) other.ymin ≤ s2.itsY + gap := max_le (by omega) (by omega)
  have hn1 : s1.itsY - gap ≤ min (o.ymax + gap) other.ymax := le_min (by omega) (by omega)
  have hn2 : s2.itsY - gap ≤ min (o.ymax + gap) other.ymax := le_min (by omega) (by omega)
  refine ⟨⟨?_, ?_⟩, by omega, by omega, by omega, by omega⟩
  · by_cases h : o.xmin - gap < other.xmin
    · rw [if_pos h]
      omega
    · rw [if_neg h]
      omega
  · by_cases h : o.ymin - gap < other.ymin
    · rw [if_pos h]
      omega
    · rw [if_neg h]
      omega

end PixelInfo

namespace PixelInfo

/-- C6: for any two well-formed `Object2D`s, `canMerge` holds exactly when
some pair of their scans is closer than the configured gap: strictly
adjacent runs when `flagAdj` is set, and Euclidean separation below
`threshS` otherwise.  In particular the bounding-box prefilter `isNear`
never rejects a pair of objects containing such a scan pair, and `canMerge`
never holds when every scan pair is farther apart than the gap. -/
theorem canMerge_iff_close_scan_pair (o other : Object2D) (threshS : ℚ)
    (flagAdj : Bool) (ho : o.wellFormed) (hother : other.wellFormed) :
    (o.canMerge other threshS flagAdj ↔
      ∃ s1 ∈ o.scanlist, ∃ s2 ∈ other.scanlist,
        (if flagAdj then s1.adjacentScans s2 else s1.minSepLt s2 threshS)) := by
  cases flagAdj
  · unfold Object2D.canMerge Object2D.isClose
    simp only [Bool.false_eq_true, if_false]
    constructor
    · rintro ⟨-, s1, hs1, s2, hs2, -, -, -, -, -, hpair⟩
      exact ⟨s1, hs1, s2, hs2, hpair⟩
    · rintro ⟨s1, hs1, s2, hs2, hpair⟩
      have hl1 := (wellFormed_bounds o ho s1 hs1).1
      have hl2 := (wellFormed_bounds other hother s2 hs2).1
      obtain ⟨hgap, hdy, hx1, hx2⟩ := minSepLt_bounds s1 s2 threshS hl1 hl2 hpair
      obtain ⟨hnear, hw1, hw2, hw3, hw4⟩ :=
        closePair_near o other ⌈threshS⌉ hgap ho hother s1 hs1 s2 hs2 hdy hx1 hx2
      exact ⟨hnear, s1, hs1, s2, hs2, hw1, hw2, hw3, hw4, hdy, hpair⟩
  · unfold Object2D.canMerge Object2D.isClose
    simp only [if_true]
    unfold Scan.adjacentScans
    constructor
    · rintro ⟨-, s1, hs1, s2, hs2, -, -, -, -, hdy, hpair⟩
      have hl1 := (wellFormed_bounds o ho s1 hs1).1
      have hl2 := (wellFormed_bounds other hother s2 hs2).1
      refine ⟨s1, hs1, s2, hs2, hdy, ?_, ?_⟩
      · unfold Scan.getXmax
        by_cases hc : s2.itsX < s1.itsX - 1
        · rw [if_pos hc] at hpair
          omega
        · rw [if_neg hc] at hpair
          omega
      · unfold Scan.getXmax
        by_cases hc : s2.itsX < s1.itsX - 1
        · rw [if_pos hc] at hpair
          omega
        · rw [if_neg hc] at hpair
          omega
    · rintro ⟨s1, hs1, s2, hs2, hdy, hxa, hxb⟩
      obtain ⟨hnear, hw1, hw2, hw3, hw4⟩ :=
        closePair_near o other 1 (le_refl 1) ho hother s1 hs1 s2 hs2 hdy
          (by omega) (by omega)
      refine ⟨hnear, s1, hs1, s2, hs2, hw1, hw2, hw3, hw4, hdy, ?_⟩
      unfold Scan.getXmax at hxa hxb
      by_cases hc : s2.itsX < s1.itsX - 1
      · rw [if_pos hc]
        omega
      · rw [if_neg hc]
        omega

/-- C6 witness: two single-scan objects with pixel sets `{(0,0),(1,0)}` and
`{(4,0)}` under `threshS = 2` in Euclidean mode: the nearest pixels are 3
apart, and indeed neither side of the equivalence holds. -/
theorem canMerge_iff_close_scan_pair_witness :
    (Object2D.wellFormed ⟨[⟨0, 0, 2⟩], 2, 1, 0, 0, 1, 0, 0⟩) ∧
    (Object2D.wellFormed ⟨[⟨0, 4, 1⟩], 1, 4, 0, 4, 4, 0, 0⟩) ∧
    (Object2D.canMerge ⟨[⟨0, 0, 2⟩], 2, 1, 0, 0, 1, 0, 0⟩
        ⟨[⟨0, 4, 1⟩], 1, 4, 0, 4, 4, 0, 0⟩ 2 false ↔
      ∃ s1 ∈ (Object2D.scanlist ⟨[⟨0, 0, 2⟩], 2, 1, 0, 0, 1, 0, 0⟩),
        ∃ s2 ∈ (Object2D.scanlist ⟨[⟨0, 4, 1⟩], 1, 4, 0, 4, 4, 0, 0⟩),
          (if false then s1.adjacentScans s2 else s1.minSepLt s2 2)) := by
  refine ⟨by decide, by decide, ?_⟩
  exact canMerge_iff_close_scan_pair
    ⟨[⟨0, 0, 2⟩], 2, 1, 0, 0, 1, 0, 0⟩ ⟨[⟨0, 4, 1⟩], 1, 4, 0, 4, 4, 0, 0⟩
    2 false (by decide) (by decide)

end PixelInfo

/-! ### Object growth (`src/Map/objectgrower.cpp`, claim C5)

The flag array of `ObjectGrower` maps each voxel to one of the three
states `{AVAILABLE, DETECTED, BLANK}`.  The flat index
`x + y*dimx + z*dimx*dimy` is modelled by indexing with the voxel triple
itself; `isDetection` applied to the flux array and the growth threshold
is abstracted as the predicate `isDet ∘ flux`. -/

namespace ObjectGrower

inductive STATE where
  | AVAILABLE
  | DETECTED
  | BLANK
deriving DecidableEq

abbrev Vox := ℤ × ℤ × ℤ

/-- The clamped neighbourhood window of a voxel: the triple loop of
`grow`/`growFromPixel` with the spatial and velocity thresholds, clipped
to the cube. -/
def neighbors (dimx dimy dimz ts tv : ℤ) (v : Vox) : List Vox :=
  (intRange (max (v.1 - ts) 0) (min (v.1 + ts) (dimx - 1))).flatMap fun x =>
    (intRange (max (v.2.1 - ts) 0) (min (v.2.1 + ts) (dimy - 1))).flatMap fun y =>
      (intRange (max (v.2.2 - tv) 0) (min (v.2.2 + tv) (dimz - 1))).map fun z =>
        (x, y, z)

/-- One voxel's window scan (the shared inner body of `grow` and
`growFromPixel`): every surrounding voxel that is not the centre, is
`AVAILABLE`, and passes the growth threshold is flipped to `DETECTED` and
collected. -/
def processNeighbors (isDet : ℚ → Bool) (flux : Vox → ℚ)
    (dimx dimy dimz ts tv : ℤ) (flags : Vox → STATE) (v : Vox) :
    (Vox → STATE) × List Vox :=
  (neighbors dimx dimy dimz ts tv v).foldl
    (fun acc w =>
      if w ≠ v ∧ acc.1 w = STATE.AVAILABLE then
        if isDet (flux w) then
          (Function.update acc.1 w STATE.DETECTED, acc.2 ++ [w])
        else acc
      else acc)
    (flags, [])

/-- The worklist loop of `ObjectGrower::grow` (`objectgrower.cpp:185-214`):
`voxlist` grows as new voxels are appended; the `fuel` argument bounds the
number of processed entries. -/
def growLoop (isDet : ℚ → Bool) (flux : Vox → ℚ) (dimx dimy dimz ts tv : ℤ) :
    ℕ → (Vox → STATE) → List Vox → List Vox → (Vox → STATE) × List Vox
  | 0, flags, _, acc => (flags, acc)
  | _ + 1, flags, [], acc => (flags, acc)
  | fuel + 1, flags, v :: queue, acc =>
    let r := processNeighbors isDet flux dimx dimy dimz ts tv flags v
    growLoop isDet flux dimx dimy dimz ts tv fuel r.1 (queue ++ r.2) (acc ++ r.2)

/-- `ObjectGrower::grow(theObject)`: process the object's voxel list,
returning the final flag array and the list of voxels newly added to the
detection. -/
def grow (isDet : ℚ → Bool) (flux : Vox → ℚ) (dimx dimy dimz ts tv : ℤ)
    (fuel : ℕ) (flags : Vox → STATE) (voxlist : List Vox) :
    (Vox → STATE) × List Vox :=
  growLoop isDet flux dimx dimy dimz ts tv fuel flags voxlist []

/-- `ObjectGrower::growFromPixel(vox)` (`objectgrower.cpp:226-271`):
collect the newly detected window voxels, then recursively grow from each
of them (the C++ iteration over the reallocating `newVoxels` vector is
modelled by the equivalent recursion, threading the flag array). -/
def growFromPixel (isDet : ℚ → Bool) (flux : Vox → ℚ)
    (dimx dimy dimz ts tv : ℤ) :
    ℕ → (Vox → STATE) → Vox → (Vox → STATE) × List Vox
  | 0, flags, _ => (flags, [])
  | fuel + 1, flags, v =>
    let r := processNeighbors isDet flux dimx dimy dimz ts tv flags v
    r.2.foldl
      (fun acc w =>
        let r2 := growFromPixel isDet flux dimx dimy dimz ts tv fuel acc.1 w
        (r2.1, acc.2 ++ r2.2))
      (r.1, r.2)

/-- A flag array evolved from `flags0` by legal growth steps only:
unchanged, or `AVAILABLE` flipped to `DETECTED` on a voxel passing the
growth threshold. -/
def evolved (isDet : ℚ → Bool) (flux : Vox → ℚ)
    (flags0 flags : Vox → STATE) : Prop :=
  ∀ w, flags w = flags0 w ∨
    (flags0 w = STATE.AVAILABLE ∧ flags w = STATE.DETECTED ∧ isDet (flux w) = true)

theorem evolved_refl (isDet : ℚ → Bool) (flux : Vox → ℚ) (flags : Vox → STATE) :
    evolved isDet flux flags flags := fun w => Or.inl rfl

theorem evolved_trans {isDet : ℚ → Bool} {flux : Vox → ℚ}
    {f0 f1 f2 : Vox → STATE}
    (h01 : evolved isDet flux f0 f1) (h12 : evolved isDet flux f1 f2) :
    evolved isDet flux f0 f2 := by
  intro w
  rcases h12 w with h | ⟨ha, hd, hdet⟩
  · rw [h]
    exact h01 w
  · rcases h01 w with h0 | ⟨h0a, h0d, h0det⟩
    · exact Or.inr ⟨h0 ▸ ha, hd, hdet⟩
    · rw [h0d] at ha
      exact absurd ha (by simp)

theorem evolved_detected {isDet : ℚ → Bool} {flux : Vox → ℚ}
    {f0 f1 : Vox → STATE} (h : evolved isDet flux f0 f1) (w : Vox)
    (hw : f0 w = STATE.DETECTED) : f1 w = STATE.DETECTED := by
  rcases h w with h1 | ⟨ha, hd, -⟩
  · rw [h1, hw]
  · exact hd

theorem evolved_available {isDet : ℚ → Bool} {flux : Vox → ℚ}
    {f0 f1 : Vox → STATE} (h : evolved isDet flux f0 f1) (w : Vox)
    (hw : f1 w = STATE.AVAILABLE) : f0 w = STATE.AVAILABLE := by
  rcases h w with h1 | ⟨-, hd, -⟩
  · rw [← h1, hw]
  · rw [hd] at hw
    exact absurd hw (by simp)

/-- The bundle of invariants carried through every growth traversal:
legally evolved flags, no duplicates among the collected voxels, and every
collected voxel was `AVAILABLE`, passes the threshold, and is now
`DETECTED`. -/
def growInv (isDet : ℚ → Bool) (flux : Vox → ℚ) (flags0 : Vox → STATE)
    (st : (Vox → STATE) × List Vox) : Prop :=
  evolved isDet flux flags0 st.1 ∧ st.2.Nodup ∧
    ∀ w ∈ st.2, flags0 w = STATE.AVAILABLE ∧ isDet (flux w) = true ∧
      st.1 w = STATE.DETECTED

theorem processNeighbors_fold_inv (isDet : ℚ → Bool) (flux : Vox → ℚ)
    (v : Vox) (l : List Vox) (flags0 : Vox → STATE)
    (st : (Vox → STATE) × List Vox) (hst : growInv isDet flux flags0 st) :
    growInv isDet flux flags0
      (l.foldl
        (fun acc w =>
          if w ≠ v ∧ acc.1 w = STATE.AVAILABLE then
            if isDet (flux w) then
              (Function.update acc.1 w STATE.DETECTED, acc.2 ++ [w])
            else acc
          else acc)
        st) := by
  induction l generalizing st with
  | nil => exact hst
  | cons w ws ih =>
    rw [List.foldl_cons]
    apply ih
    by_cases hc : w ≠ v ∧ st.1 w = STATE.AVAILABLE
    · rw [if_pos hc]
      by_cases hdet : isDet (flux w)
      · rw [if_pos hdet]
        obtain ⟨he, hnd, hmem⟩ := hst
        have hw0 : flags0 w = STATE.AVAILABLE := evolved_available he w hc.2
        have hwnotin : w ∉ st.2 := by
          intro hin
          have := (hmem w hin).2.2
          rw [this] at hc
          exact absurd hc.2 (by simp)
        refine ⟨?_, ?_, ?_⟩
        · intro u
          dsimp only
          by_cases hu : u = w
          · subst hu
            exact Or.inr ⟨hw0, Function.update_same u STATE.DETECTED st.1, hdet⟩
          · rw [Function.update_noteq hu]
            exact he u
        · dsimp only
          rw [List.nodup_append]
          exact ⟨hnd, List.nodup_singleton w, by
            intro a ha hb
            rw [List.mem_singleton] at hb
            exact hwnotin (hb ▸ ha)⟩
        · intro u hu
          dsimp only at hu ⊢
          rcases List.mem_append.mp hu with h | h
          · obtain ⟨h1, h2, h3⟩ := hmem u h
            have hune : u ≠ w := fun he2 => hwnotin (he2 ▸ h)
            rw [Function.update_noteq hune]
            exact ⟨h1, h2, h3⟩
          · rw [List.mem_singleton] at h
            subst h
            exact ⟨hw0, hdet, Function.update_same u STATE.DETECTED st.1⟩
      · rw [if_neg hdet]
        exact hst
    · rw [if_neg hc]
      exact hst

theorem processNeighbors_inv (isDet : ℚ → Bool) (flux : Vox → ℚ)
    (dimx dimy dimz ts tv : ℤ) (flags : Vox → STATE) (v : Vox) :
    growInv isDet flux flags
      (processNeighbors isDet flux dimx dimy dimz ts tv flags v) := by
  unfold processNeighbors
  exact processNeighbors_fold_inv isDet flux v _ flags (flags, [])
    ⟨evolved_refl isDet flux flags, List.nodup_nil, by simp⟩

theorem growInv_compose {isDet : ℚ → Bool} {flux : Vox → ℚ}
    {flags0 flags1 : Vox → STATE} {acc : List Vox}
    (hpre : growInv isDet flux flags0 (flags1, acc))
    {st : (Vox → STATE) × List Vox}
    (hstep : growInv isDet flux flags1 st) :
    growInv isDet flux flags0 (st.1, acc ++ st.2) := by
  obtain ⟨he1, hnd1, hm1⟩ := hpre
  obtain ⟨he2, hnd2, hm2⟩ := hstep
  refine ⟨evolved_trans he1 he2, ?_, ?_⟩
  · rw [List.nodup_append]
    refine ⟨hnd1, hnd2, ?_⟩
    intro a ha hb
    have hdet1 : flags1 a = STATE.DETECTED := (hm1 a ha).2.2
    have hav : flags1 a = STATE.AVAILABLE := (hm2 a hb).1
    rw [hdet1] at hav
    exact absurd hav (by simp)
  · intro w hw
    rcases List.mem_append.mp hw with h | h
    · obtain ⟨h1, h2, h3⟩ := hm1 w h
      exact ⟨h1, h2, evolved_detected he2 w h3⟩
    · obtain ⟨h1, h2, h3⟩ := hm2 w h
      exact ⟨evolved_available he1 w h1, h2, h3⟩

end ObjectGrower

namespace ObjectGrower

theorem growLoop_inv (isDet : ℚ → Bool) (flux : Vox → ℚ)
    (dimx dimy dimz ts tv : ℤ) (fuel : ℕ) :
    ∀ (flags0 flags : Vox → STATE) (queue acc : List Vox),
      growInv isDet flux flags0 (flags, acc) →
      growInv isDet flux flags0
        (growLoop isDet flux dimx dimy dimz ts tv fuel flags queue acc) := by
  induction fuel with
  | zero =>
    intro flags0 flags queue acc h
    exact h
  | succ n ih =>
    intro flags0 flags queue acc h
    cases queue with
    | nil => exact h
    | cons v rest =>
      rw [growLoop]
      exact ih flags0 _ _ _ (growInv_compose h
        (processNeighbors_inv isDet flux dimx dimy dimz ts tv flags v))

theorem growFromPixel_inv (isDet : ℚ → Bool) (flux : Vox → ℚ)
    (dimx dimy dimz ts tv : ℤ) :
    ∀ (fuel : ℕ) (flags : Vox → STATE) (v : Vox),
      growInv isDet flux flags
        (growFromPixel isDet flux dimx dimy dimz ts tv fuel flags v) := by
  intro fuel
  induction fuel with
  | zero =>
    intro flags v
    exact ⟨evolved_refl isDet flux flags, List.nodup_nil,
      fun w hw => absurd hw (List.not_mem_nil w)⟩
  | succ n ih =>
    intro flags v
    rw [growFromPixel]
    dsimp only
    have hstep : ∀ (ws : List Vox) (st : (Vox → STATE) × List Vox),
        growInv isDet flux flags st →
        growInv isDet flux flags
          (ws.foldl (fun acc w =>
            ((growFromPixel isDet flux dimx dimy dimz ts tv n acc.1 w).1,
             acc.2 ++ (growFromPixel isDet flux dimx dimy dimz ts tv n acc.1 w).2)) st) := by
      intro ws
      induction ws with
      | nil =>
        intro st h
        exact h
      | cons w ws2 ih2 =>
        intro st h
        rw [List.foldl_cons]
        apply ih2
        exact growInv_compose h (ih st.1 w)
    exact hstep _ _
      (processNeighbors_inv isDet flux dimx dimy dimz ts tv flags v)

/-- C5: during object growth every voxel carries one of the three states
and both `grow` and `growFromPixel` only ever flip `AVAILABLE` voxels whose
flux passes the growth threshold to `DETECTED`: every other voxel keeps its
state (`DETECTED` and `BLANK` voxels are never modified), and the list of
voxels added to the detection has no duplicates and consists exactly of
voxels that were `AVAILABLE` and pass the threshold. -/
theorem objectGrower_available_to_detected_only
    (isDet : ℚ → Bool) (flux : Vox → ℚ) (dimx dimy dimz ts tv : ℤ)
    (fuel : ℕ) (flags : Vox → STATE) (voxlist : List Vox) (v : Vox) :
    ((∀ w, (grow isDet flux dimx dimy dimz ts tv fuel flags voxlist).1 w = flags w ∨
        (flags w = STATE.AVAILABLE ∧
          (grow isDet flux dimx dimy dimz ts tv fuel flags voxlist).1 w = STATE.DETECTED ∧
          isDet (flux w) = true)) ∧
      (grow isDet flux dimx dimy dimz ts tv fuel flags voxlist).2.Nodup ∧
      (∀ w ∈ (grow isDet flux dimx dimy dimz ts tv fuel flags voxlist).2,
        flags w = STATE.AVAILABLE ∧ isDet (flux w) = true ∧
          (grow isDet flux dimx dimy dimz ts tv fuel flags voxlist).1 w = STATE.DETECTED)) ∧
    ((∀ w, (growFromPixel isDet flux dimx dimy dimz ts tv fuel flags v).1 w = flags w ∨
        (flags w = STATE.AVAILABLE ∧
          (growFromPixel isDet flux dimx dimy dimz ts tv fuel flags v).1 w = STATE.DETECTED ∧
          isDet (flux w) = true)) ∧
      (growFromPixel isDet flux dimx dimy dimz ts tv fuel flags v).2.Nodup ∧
      (∀ w ∈ (growFromPixel isDet flux dimx dimy dimz ts tv fuel flags v).2,
        flags w = STATE.AVAILABLE ∧ isDet (flux w) = true ∧
          (growFromPixel isDet flux dimx dimy dimz ts tv fuel flags v).1 w = STATE.DETECTED)) := by
  have hg : growInv isDet flux flags
      (grow isDet flux dimx dimy dimz ts tv fuel flags voxlist) :=
    growLoop_inv isDet flux dimx dimy dimz ts tv fuel flags flags voxlist []
      ⟨evolved_refl isDet flux flags, List.nodup_nil, by simp⟩
  have hp : growInv isDet flux flags
      (growFromPixel isDet flux dimx dimy dimz ts tv fuel flags v) :=
    growFromPixel_inv isDet flux dimx dimy dimz ts tv fuel flags v
  exact ⟨⟨hg.1, hg.2.1, hg.2.2⟩, ⟨hp.1, hp.2.1, hp.2.2⟩⟩

end ObjectGrower

namespace PixelInfo

/-- C8 witness: re-adding pixel `(1,0)` of a two-pixel object, and voxel
`(1,0,4)` of the corresponding one-channel 3D object, changes nothing. -/
theorem addPixel_existing_noop_witness :
    (∀ s ∈ (Object2D.scanlist ⟨[⟨0, 0, 2⟩], 2, 1, 0, 0, 1, 0, 0⟩), 1 ≤ s.itsXLen) ∧
    Object2D.separatedRows ⟨[⟨0, 0, 2⟩], 2, 1, 0, 0, 1, 0, 0⟩ ∧
    Object2D.isInObject ⟨[⟨0, 0, 2⟩], 2, 1, 0, 0, 1, 0, 0⟩ 1 0 ∧
    (Object2D.addPixel ⟨[⟨0, 0, 2⟩], 2, 1, 0, 0, 1, 0, 0⟩ 1 0 =
        ⟨[⟨0, 0, 2⟩], 2, 1, 0, 0, 1, 0, 0⟩ ∧
      Object3D.addPixel
          ⟨[(4, ⟨[⟨0, 0, 2⟩], 2, 1, 0, 0, 1, 0, 0⟩)], 2, 1, 0, 8, 0, 1, 0, 0, 4, 4⟩
          1 0 4 =
        ⟨[(4, ⟨[⟨0, 0, 2⟩], 2, 1, 0, 0, 1, 0, 0⟩)], 2, 1, 0, 8, 0, 1, 0, 0, 4, 4⟩) :=
  ⟨by decide, by decide, by decide,
    addPixel_existing_noop ⟨[⟨0, 0, 2⟩], 2, 1, 0, 0, 1, 0, 0⟩ 1 0
      (by decide) (by decide) (by decide)
      ⟨[(4, ⟨[⟨0, 0, 2⟩], 2, 1, 0, 0, 1, 0, 0⟩)], 2, 1, 0, 8, 0, 1, 0, 0, 4, 4⟩
      1 0 4 ⟨[⟨0, 0, 2⟩], 2, 1, 0, 0, 1, 0, 0⟩
      (by decide) (by decide) (by decide) (by decide)
      (by decide) (by decide) (by decide) (by decide)⟩

end PixelInfo

/-! ### Axis lengths and inclination (claim C2)

`ParamGuess<T>::findAxisLength` (`paramguess.cpp:397-463`) samples the
velocity field along an axis line and tracks, separately for the two
sides of the centre, the largest distance of a valid sample.  Distances
enter only through the strictly monotone `sqrt`, so the embedding tracks
squared distances; `findInclination` then sets
`inc = acos(axmin/axmaj)·180/π` and `Rmax = axmaj·pixscale` from the two
resulting axis lengths `(√left + √right)/2`.

The steep-line branch `45 < p < 135` with `p = atan(lpar[0])·180/π` is
equivalent to `lpar[0] > 1` (`atan` maps into `(-90°,90°)`), and the
`p == 90` special case is unreachable for a finite slope. -/

structure GuessGrid where
  Vemap : ℤ → ℤ → Option ℚ
  Xmin : ℤ
  Xmax : ℤ
  Ymin : ℤ
  Ymax : ℤ
  xcentre : ℚ
  ycentre : ℚ

/-- The squared distance of a sample pixel from the centre, the code's
`r*r` for `r = sqrt(pow(x-xcentre,2)+pow(y-ycentre,2))`. -/
def rsqOf (g : GuessGrid) (p : ℤ × ℤ) : ℚ :=
  ((p.1 : ℚ) - g.xcentre) ^ 2 + ((p.2 : ℚ) - g.ycentre) ^ 2

/-- The two sequential updates of the axis scan, on squared radii:
`if (r>axis_r_l && x<=xcentre)` then `if (r>axis_r_r && x>xcentre)`. -/
def axisUpdate (g : GuessGrid) (acc : ℚ × ℚ) (p : ℤ × ℤ) : ℚ × ℚ :=
  let rsq := rsqOf g p
  let acc1 := if rsq > acc.1 ∧ (p.1 : ℚ) ≤ g.xcentre then (rsq, acc.2) else acc
  if rsq > acc1.2 ∧ (p.1 : ℚ) > g.xcentre then (acc1.1, rsq) else acc1

/-- `findAxisLength`, returning the pair of squared one-sided maxima
`(axis_r_l², axis_r_r²)`; the code's return value is
`(√axis_r_l² + √axis_r_r²)/2`. -/
def findAxisLengthSq (g : GuessGrid) (lpar : ℚ × ℚ) : ℚ × ℚ :=
  if 1 < lpar.1 then
    (intRange g.Ymin g.Ymax).foldl
      (fun acc (y : ℤ) =>
        let x := lroundQ (((y : ℚ) - lpar.2) / lpar.1)
        if g.Xmin ≤ x ∧ x ≤ g.Xmax ∧ (g.Vemap x y).isSome then
          axisUpdate g acc (x, y)
        else acc)
      (0, 0)
  else
    (intRange g.Xmin g.Xmax).foldl
      (fun acc (x : ℤ) =>
        let y := lroundQ (lpar.1 * (x : ℚ) + lpar.2)
        if g.Ymin ≤ y ∧ y ≤ g.Ymax ∧ (g.Vemap x y).isSome then
          axisUpdate g acc (x, y)
        else acc)
      (0, 0)

/-- The valid samples of the axis scan: line pixels inside the bounding
box whose velocity-field value is not blank. -/
def axisSamples (g : GuessGrid) (lpar : ℚ × ℚ) : List (ℤ × ℤ) :=
  if 1 < lpar.1 then
    ((intRange g.Ymin g.Ymax).map
        (fun (y : ℤ) => (lroundQ (((y : ℚ) - lpar.2) / lpar.1), y))).filter
      (fun p => g.Xmin ≤ p.1 ∧ p.1 ≤ g.Xmax ∧ (g.Vemap p.1 p.2).isSome)
  else
    ((intRange g.Xmin g.Xmax).map
        (fun (x : ℤ) => (x, lroundQ (lpar.1 * (x : ℚ) + lpar.2)))).filter
      (fun p => g.Ymin ≤ p.2 ∧ p.2 ≤ g.Ymax ∧ (g.Vemap p.1 p.2).isSome)

/-- The squared distance of the farthest valid sample on the axis line:
what the claim says `findAxisLength` returns (squared). -/
def farthestSampleSq (g : GuessGrid) (lpar : ℚ × ℚ) : ℚ :=
  (axisSamples g lpar).foldl (fun m p => max m (rsqOf g p)) 0

/-- The squared one-sided maxima over the samples left of (and including)
the centre and strictly right of it. -/
def leftMaxSq (g : GuessGrid) (lpar : ℚ × ℚ) : ℚ :=
  ((axisSamples g lpar).filter (fun p => (p.1 : ℚ) ≤ g.xcentre)).foldl
    (fun m p => max m (rsqOf g p)) 0

def rightMaxSq (g : GuessGrid) (lpar : ℚ × ℚ) : ℚ :=
  ((axisSamples g lpar).filter (fun p => (p.1 : ℚ) > g.xcentre)).foldl
    (fun m p => max m (rsqOf g p)) 0

/-- The value `findAxisLength` actually returns, `(axis_r_r + axis_r_l)/2.`
(`paramguess.cpp:461`), reconstructed from the squared one-sided maxima
(distances enter the scan only through the strictly monotone `sqrt`). -/
def axisLen (g : GuessGrid) (lpar : ℚ × ℚ) (a : ℝ) : Prop :=
  a = (Real.sqrt (((findAxisLengthSq g lpar).2 : ℝ)) +
    Real.sqrt (((findAxisLengthSq g lpar).1 : ℝ))) / 2

/-- `ParamGuess<T>::findInclination`, algorithm 1 (`paramguess.cpp:307-325`),
as a relation on the pair it sets: the returned axis lengths of the major-
and minor-axis lines, swapped when the minor one is longer
(`if (axmin>axmaj) std::swap(axmin, axmaj)`), then
`inclin = acos(axmin/axmaj)*180./M_PI` and
`Rmax = axmaj*PixScale*arcsconv(cunit)`. -/
def findInclination (g : GuessGrid) (lmaj lmin : ℚ × ℚ)
    (pixScale cunitConv : ℚ) (inclin Rmax : ℝ) : Prop :=
  ∃ axmaj0 axmin0 : ℝ, axisLen g lmaj axmaj0 ∧ axisLen g lmin axmin0 ∧
    (let axmaj := if axmaj0 < axmin0 then axmin0 else axmaj0
     let axmin := if axmaj0 < axmin0 then axmaj0 else axmin0
     inclin = Real.arccos (axmin / axmaj) * 180 / Real.pi ∧
     Rmax = axmaj * (pixScale : ℝ) * (cunitConv : ℝ))

theorem foldl_filter_eq {α β : Type} (p : α → Bool) (f : β → α → β)
    (l : List α) (a : β) :
    (l.filter p).foldl f a = l.foldl (fun x y => if p y then f x y else x) a := by
  induction l generalizing a with
  | nil => rfl
  | cons v vs ih =>
    rw [List.filter_cons]
    by_cases h : p v
    · rw [if_pos h, List.foldl_cons, List.foldl_cons, if_pos h]
      exact ih (f a v)
    · rw [if_neg h, List.foldl_cons, if_neg h]
      exact ih a

theorem axisUpdate_eq (g : GuessGrid) (acc : ℚ × ℚ) (p : ℤ × ℤ) :
    axisUpdate g acc p =
      (if rsqOf g p > acc.1 ∧ (p.1 : ℚ) ≤ g.xcentre then rsqOf g p else acc.1,
       if rsqOf g p > acc.2 ∧ (p.1 : ℚ) > g.xcentre then rsqOf g p else acc.2) := by
  unfold axisUpdate
  dsimp only
  split_ifs with h1 h2 h2 <;> simp_all

theorem axisUpdate_fold_split (g : GuessGrid) (l : List (ℤ × ℤ)) (a b : ℚ) :
    l.foldl (axisUpdate g) (a, b) =
      ((l.filter (fun p => (p.1 : ℚ) ≤ g.xcentre)).foldl
          (fun m p => max m (rsqOf g p)) a,
       (l.filter (fun p => (p.1 : ℚ) > g.xcentre)).foldl
          (fun m p => max m (rsqOf g p)) b) := by
  induction l generalizing a b with
  | nil => rfl
  | cons v vs ih =>
    by_cases hc : (v.1 : ℚ) ≤ g.xcentre
    · have hc' : ¬ (v.1 : ℚ) > g.xcentre := not_lt.mpr hc
      have hf1 : (v :: vs).filter (fun p => decide ((p.1 : ℚ) ≤ g.xcentre)) =
          v :: vs.filter (fun p => decide ((p.1 : ℚ) ≤ g.xcentre)) := by
        rw [List.filter_cons, if_pos (decide_eq_true hc)]
      have hf2 : (v :: vs).filter (fun p => decide ((p.1 : ℚ) > g.xcentre)) =
          vs.filter (fun p => decide ((p.1 : ℚ) > g.xcentre)) := by
        rw [List.filter_cons, if_neg (by simpa using hc')]
      have estep : axisUpdate g (a, b) v = (max a (rsqOf g v), b) := by
        rw [axisUpdate_eq]
        congr 1
        · by_cases h : rsqOf g v > a
          · rw [if_pos ⟨h, hc⟩, max_eq_right (le_of_lt h)]
          · rw [if_neg (fun hh => h hh.1), max_eq_left (not_lt.mp h)]
        · exact if_neg (fun hh => hc' hh.2)
      rw [List.foldl_cons, estep, hf1, hf2, List.foldl_cons]
      exact ih (max a (rsqOf g v)) b
    · have hc' : (v.1 : ℚ) > g.xcentre := not_le.mp hc
      have hf1 : (v :: vs).filter (fun p => decide ((p.1 : ℚ) ≤ g.xcentre)) =
          vs.filter (fun p => decide ((p.1 : ℚ) ≤ g.xcentre)) := by
        rw [List.filter_cons, if_neg (by simpa using hc)]
      have hf2 : (v :: vs).filter (fun p => decide ((p.1 : ℚ) > g.xcentre)) =
          v :: vs.filter (fun p => decide ((p.1 : ℚ) > g.xcentre)) := by
        rw [List.filter_cons, if_pos (decide_eq_true hc')]
      have estep : axisUpdate g (a, b) v = (a, max b (rsqOf g v)) := by
        rw [axisUpdate_eq]
        congr 1
        · exact if_neg (fun hh => hc hh.2)
        · by_cases h : rsqOf g v > b
          · rw [if_pos ⟨h, hc'⟩, max_eq_right (le_of_lt h)]
          · rw [if_neg (fun hh => h hh.1), max_eq_left (not_lt.mp h)]
      rw [List.foldl_cons, estep, hf1, hf2, List.foldl_cons]
      exact ih a (max b (rsqOf g v))

theorem findAxisLengthSq_eq_fold_samples (g : GuessGrid) (lpar : ℚ × ℚ) :
    findAxisLengthSq g lpar = (axisSamples g lpar).foldl (axisUpdate g) (0, 0) := by
  unfold findAxisLengthSq axisSamples
  by_cases hb : 1 < lpar.1
  · rw [if_pos hb, if_pos hb, foldl_filter_eq, List.foldl_map]
    congr 1
    funext acc y
    dsimp only
    simp only [decide_eq_true_eq]
  · rw [if_neg hb, if_neg hb, foldl_filter_eq, List.foldl_map]
    congr 1
    funext acc x
    dsimp only
    simp only [decide_eq_true_eq]

/-- Each component of `findAxisLengthSq` is the maximum of the squared
sample distances on its own side of the centre (left: `x ≤ xcentre`,
right: `x > xcentre`). -/
theorem findAxisLength_per_side_maxima (g : GuessGrid) (lpar : ℚ × ℚ) :
    findAxisLengthSq g lpar = (leftMaxSq g lpar, rightMaxSq g lpar) := by
  rw [findAxisLengthSq_eq_fold_samples, axisUpdate_fold_split]
  rfl

/-- C2 (amended): whenever `findInclination` (algorithm 1) sets `inclin`
and `Rmax`, each of the two axis lengths it uses is the average
`(√left + √right)/2` of the per-side farthest distances of non-blank
samples on its axis line (left: `x ≤ xcentre`, right: `x > xcentre`) —
not the distance of the single farthest sample — and, with
`axmaj`/`axmin` the larger/smaller of the two after the swap,
`inclin = acos(axmin/axmaj)·180/π` degrees and `Rmax` is `axmaj` times
the pixel scale converted to arcseconds. -/
theorem findInclination_per_side_average (g : GuessGrid) (lmaj lmin : ℚ × ℚ)
    (pixScale cunitConv : ℚ) (inclin Rmax : ℝ)
    (h : findInclination g lmaj lmin pixScale cunitConv inclin Rmax) :
    ∃ A B : ℝ,
      A = (Real.sqrt ((leftMaxSq g lmaj : ℝ)) +
        Real.sqrt ((rightMaxSq g lmaj : ℝ))) / 2 ∧
      B = (Real.sqrt ((leftMaxSq g lmin : ℝ)) +
        Real.sqrt ((rightMaxSq g lmin : ℝ))) / 2 ∧
      inclin = Real.arccos (min A B / max A B) * 180 / Real.pi ∧
      Rmax = max A B * (pixScale : ℝ) * (cunitConv : ℝ) := by
  obtain ⟨A, B, hA, hB, h2⟩ := h
  dsimp only at h2
  obtain ⟨hinc, hrmax⟩ := h2
  refine ⟨A, B, ?_, ?_, ?_, ?_⟩
  · rw [axisLen, findAxisLength_per_side_maxima] at hA
    rw [hA]
    dsimp only
    ring
  · rw [axisLen, findAxisLength_per_side_maxima] at hB
    rw [hB]
    dsimp only
    ring
  · by_cases hc : A < B
    · simp only [if_pos hc] at hinc
      rw [min_eq_left hc.le, max_eq_right hc.le]
      exact hinc
    · simp only [if_neg hc] at hinc
      rw [min_eq_right (not_lt.mp hc), max_eq_left (not_lt.mp hc)]
      exact hinc
  · by_cases hc : A < B
    · simp only [if_pos hc] at hrmax
      rw [max_eq_right hc.le]
      exact hrmax
    · simp only [if_neg hc] at hrmax
      rw [max_eq_left (not_lt.mp hc)]
      exact hrmax

/-- The velocity field used to refute the farthest-pixel reading of C2:
non-blank pixels at `(0,5)`, `(5,5)` and `(7,5)` only, centre `(5,5)`,
bounding box `[0,10]²`; the major-axis line is the horizontal `y = 5`
(`lpar = (0, 5)`). -/
def cexGrid : GuessGrid :=
  { Vemap := fun x y => if (x = 0 ∨ x = 5 ∨ x = 7) ∧ y = 5 then some 1 else none,
    Xmin := 0, Xmax := 10, Ymin := 0, Ymax := 10, xcentre := 5, ycentre := 5 }

theorem cex_axisSamples : axisSamples cexGrid (0, 5) = [(0, 5), (5, 5), (7, 5)] := by
  have h5 : ∀ x : ℤ, lroundQ ((0:ℚ) * (x:ℚ) + 5) = 5 := fun x => by
    rw [show (0:ℚ) * (x:ℚ) + 5 = 5 by ring]
    exact lroundQ_eq_of_nonneg _ _ (by norm_num) (by norm_num) (by norm_num)
  rw [axisSamples]
  rw [if_neg (by norm_num)]
  simp only [cexGrid]
  rw [show intRange (0:ℤ) 10 = [0,1,2,3,4,5,6,7,8,9,10] from by decide]
  simp only [List.map_cons, List.map_nil, h5]
  decide

/-- C2 counterexample: on `cexGrid`, the one-sided maxima of the axis scan
are `5` (left, pixel `(0,5)`) and `2` (right, pixel `(7,5)`), so the axis
length the code computes is `(5+2)/2 = 7/2`, while the farthest non-blank
pixel on the line is `5` away: `findAxisLength` does not return the
distance of the farthest non-blank pixel on the axis line. -/
theorem findAxisLength_not_farthest_cex :
    (Real.sqrt (((findAxisLengthSq cexGrid (0, 5)).1 : ℝ)) +
        Real.sqrt (((findAxisLengthSq cexGrid (0, 5)).2 : ℝ))) / 2 ≠
      Real.sqrt ((farthestSampleSq cexGrid (0, 5) : ℝ)) := by
  have hfa : findAxisLengthSq cexGrid (0, 5) = (25, 4) := by
    rw [findAxisLengthSq_eq_fold_samples, cex_axisSamples]
    norm_num [List.foldl, axisUpdate, rsqOf, cexGrid]
  have hfar : farthestSampleSq cexGrid (0, 5) = 25 := by
    rw [farthestSampleSq, cex_axisSamples]
    norm_num [List.foldl, rsqOf, cexGrid]
  rw [hfa, hfar]
  have s25 : Real.sqrt ((25:ℚ) : ℝ) = 5 := by
    rw [show ((25:ℚ):ℝ) = (5:ℝ)^2 by norm_num, Real.sqrt_sq (by norm_num : (0:ℝ) ≤ 5)]
  have s4 : Real.sqrt ((4:ℚ) : ℝ) = 2 := by
    rw [show ((4:ℚ):ℝ) = (2:ℝ)^2 by norm_num, Real.sqrt_sq (by norm_num : (0:ℝ) ≤ 2)]
  show (Real.sqrt (((25:ℚ), (4:ℚ)).1 : ℝ) + Real.sqrt (((25:ℚ), (4:ℚ)).2 : ℝ)) / 2 ≠
    Real.sqrt ((25:ℚ) : ℝ)
  rw [show (((25:ℚ), (4:ℚ)).1 : ℝ) = ((25:ℚ) : ℝ) from rfl,
    show (((25:ℚ), (4:ℚ)).2 : ℝ) = ((4:ℚ) : ℝ) from rfl, s25, s4]
  norm_num

/-- C2 witness: running `findInclination` on `cexGrid` with the same line
as major and minor axis (so no swap takes place) and unit scale factors
satisfies the relation definitionally, and the amended conclusions hold
for the values it sets. -/
theorem findInclination_per_side_average_witness :
    findInclination cexGrid (0, 5) (0, 5) 1 1
        (Real.arccos
          (((Real.sqrt (((findAxisLengthSq cexGrid (0, 5)).2 : ℝ)) +
              Real.sqrt (((findAxisLengthSq cexGrid (0, 5)).1 : ℝ))) / 2) /
            ((Real.sqrt (((findAxisLengthSq cexGrid (0, 5)).2 : ℝ)) +
              Real.sqrt (((findAxisLengthSq cexGrid (0, 5)).1 : ℝ))) / 2)) *
          180 / Real.pi)
        (((Real.sqrt (((findAxisLengthSq cexGrid (0, 5)).2 : ℝ)) +
            Real.sqrt (((findAxisLengthSq cexGrid (0, 5)).1 : ℝ))) / 2) *
          ((1 : ℚ) : ℝ) * ((1 : ℚ) : ℝ)) ∧
    (∃ A B : ℝ,
      A = (Real.sqrt ((leftMaxSq cexGrid (0, 5) : ℝ)) +
        Real.sqrt ((rightMaxSq cexGrid (0, 5) : ℝ))) / 2 ∧
      B = (Real.sqrt ((leftMaxSq cexGrid (0, 5) : ℝ)) +
        Real.sqrt ((rightMaxSq cexGrid (0, 5) : ℝ))) / 2 ∧
      Real.arccos
          (((Real.sqrt (((findAxisLengthSq cexGrid (0, 5)).2 : ℝ)) +
              Real.sqrt (((findAxisLengthSq cexGrid (0, 5)).1 : ℝ))) / 2) /
            ((Real.sqrt (((findAxisLengthSq cexGrid (0, 5)).2 : ℝ)) +
              Real.sqrt (((findAxisLengthSq cexGrid (0, 5)).1 : ℝ))) / 2)) *
          180 / Real.pi =
        Real.arccos (min A B / max A B) * 180 / Real.pi ∧
      ((Real.sqrt (((findAxisLengthSq cexGrid (0, 5)).2 : ℝ)) +
          Real.sqrt (((findAxisLengthSq cexGrid (0, 5)).1 : ℝ))) / 2) *
          ((1 : ℚ) : ℝ) * ((1 : ℚ) : ℝ) =
        max A B * ((1 : ℚ) : ℝ) * ((1 : ℚ) : ℝ)) := by
  have h : findInclination cexGrid (0, 5) (0, 5) 1 1
      (Real.arccos
        (((Real.sqrt (((findAxisLengthSq cexGrid (0, 5)).2 : ℝ)) +
            Real.sqrt (((findAxisLengthSq cexGrid (0, 5)).1 : ℝ))) / 2) /
          ((Real.sqrt (((findAxisLengthSq cexGrid (0, 5)).2 : ℝ)) +
            Real.sqrt (((findAxisLengthSq cexGrid (0, 5)).1 : ℝ))) / 2)) *
        180 / Real.pi)
      (((Real.sqrt (((findAxisLengthSq cexGrid (0, 5)).2 : ℝ)) +
          Real.sqrt (((findAxisLengthSq cexGrid (0, 5)).1 : ℝ))) / 2) *
        ((1 : ℚ) : ℝ) * ((1 : ℚ) : ℝ)) := by
    unfold findInclination
    refine ⟨_, _, rfl, rfl, ?_⟩
    dsimp only
    simp [ite_self]
  exact ⟨h, findInclination_per_side_average cexGrid (0, 5) (0, 5) 1 1 _ _ h⟩

/-! ### Position angle (claim C1)

`ParamGuess<T>::findPositionAngle`, algorithm 1 (`paramguess.cpp:146-219`).
The machine `tan(p·π/180)` is abstracted as an explicit function
`tanD : ℚ → ℚ` of the candidate angle in degrees, and `findMedian`
(statistics.cpp, not among the provided sources) is modelled from the
spec as the standard median of the sorted sample list. -/

def insQ (x : ℚ) : List ℚ → List ℚ
  | [] => [x]
  | y :: ys => if x ≤ y then x :: y :: ys else y :: insQ x ys

def sortQ : List ℚ → List ℚ
  | [] => []
  | x :: xs => insQ x (sortQ xs)

/-- Modelled from the spec: `findMedian` computes the median of the
collected deviations (middle element of the sorted list, mean of the two
middle elements for even length; the empty case, unspecified in the code,
is 0 so that it never wins against the running maximum). -/
def medianQ (l : List ℚ) : ℚ :=
  if l.length % 2 = 1 then (sortQ l).getD (l.length / 2) 0
  else if l.length = 0 then 0
  else ((sortQ l).getD (l.length / 2 - 1) 0 + (sortQ l).getD (l.length / 2) 0) / 2

theorem mem_insQ {x a : ℚ} {l : List ℚ} (h : x ∈ insQ a l) : x = a ∨ x ∈ l := by
  induction l with
  | nil =>
    rw [insQ] at h
    exact Or.inl (List.mem_singleton.mp h)
  | cons y ys ih =>
    rw [insQ] at h
    by_cases hc : a ≤ y
    · rw [if_pos hc] at h
      rcases List.mem_cons.mp h with h1 | h1
      · exact Or.inl h1
      · exact Or.inr h1
    · rw [if_neg hc] at h
      rcases List.mem_cons.mp h with h1 | h1
      · exact Or.inr (h1 ▸ List.mem_cons_self y ys)
      · rcases ih h1 with h2 | h2
        · exact Or.inl h2
        · exact Or.inr (List.mem_cons.mpr (Or.inr h2))

theorem mem_sortQ {x : ℚ} {l : List ℚ} (h : x ∈ sortQ l) : x ∈ l := by
  induction l with
  | nil => exact absurd h (List.not_mem_nil x)
  | cons y ys ih =>
    rw [sortQ] at h
    rcases mem_insQ h with h1 | h1
    · exact h1 ▸ List.mem_cons_self y ys
    · exact List.mem_cons.mpr (Or.inr (ih h1))

theorem getD_bound {P : ℚ → Prop} (hP0 : P 0) (l : List ℚ)
    (h : ∀ x ∈ l, P x) (n : ℕ) : P (l.getD n 0) := by
  induction l generalizing n with
  | nil => exact hP0
  | cons y ys ih =>
    cases n with
    | zero => exact h y (List.mem_cons_self y ys)
    | succ m => exact ih (fun x hx => h x (List.mem_cons.mpr (Or.inr hx))) m

theorem medianQ_nonneg (l : List ℚ) (h : ∀ x ∈ l, 0 ≤ x) : 0 ≤ medianQ l := by
  have hs : ∀ x ∈ sortQ l, 0 ≤ x := fun x hx => h x (mem_sortQ hx)
  unfold medianQ
  split_ifs
  · exact @getD_bound (fun x => 0 ≤ x) le_rfl (sortQ l) hs _
  · exact le_rfl
  · have h1 := @getD_bound (fun x => 0 ≤ x) le_rfl (sortQ l) hs (l.length / 2 - 1)
    have h2 := @getD_bound (fun x => 0 ≤ x) le_rfl (sortQ l) hs (l.length / 2)
    linarith

theorem medianQ_le (l : List ℚ) (B : ℚ) (hB : 0 ≤ B)
    (h : ∀ x ∈ l, x ≤ B) : medianQ l ≤ B := by
  have hs : ∀ x ∈ sortQ l, x ≤ B := fun x hx => h x (mem_sortQ hx)
  unfold medianQ
  split_ifs
  · exact @getD_bound (fun x => x ≤ B) hB (sortQ l) hs _
  · exact hB
  · have h1 := @getD_bound (fun x => x ≤ B) hB (sortQ l) hs (l.length / 2 - 1)
    have h2 := @getD_bound (fun x => x ≤ B) hB (sortQ l) hs (l.length / 2)
    linarith

/-- One sweep of the velocity field along the line at candidate angle `p`
(degrees): collect the absolute deviations `|V - vsys|` of the valid
samples and the summed `V - vsys` on the two halves of the line, exactly
as the loop bodies of `findPositionAngle` algorithm 1.  Valid samples lie
in the detection's bounding box, are not blank, and lie in the cube's
velocity range. -/
def paScan (g : GuessGrid) (tanD : ℚ → ℚ) (vsys velmin velmax : ℚ)
    (p : ℚ) : List ℚ × ℚ × ℚ :=
  if 45 < p ∧ p < 135 then
    (intRange g.Ymin g.Ymax).foldl
      (fun acc (y : ℤ) =>
        let x := if p = 90 then lroundQ g.xcentre
          else lroundQ (1 / tanD p * ((y : ℚ) - g.ycentre) + g.xcentre)
        match g.Vemap x y with
        | none => acc
        | some v =>
          if g.Xmin ≤ x ∧ x ≤ g.Xmax ∧ velmin ≤ v ∧ v ≤ velmax then
            if p = 90 then
              if (y : ℚ) > g.ycentre then
                (acc.1 ++ [|v - vsys|], acc.2.1 + (v - vsys), acc.2.2)
              else (acc.1 ++ [|v - vsys|], acc.2.1, acc.2.2 + (v - vsys))
            else
              if (x : ℚ) < g.xcentre then
                (acc.1 ++ [|v - vsys|], acc.2.1 + (v - vsys), acc.2.2)
              else (acc.1 ++ [|v - vsys|], acc.2.1, acc.2.2 + (v - vsys))
          else acc)
      ([], 0, 0)
  else
    (intRange g.Xmin g.Xmax).foldl
      (fun acc (x : ℤ) =>
        let y := lroundQ (tanD p * ((x : ℚ) - g.xcentre) + g.ycentre)
        match g.Vemap x y with
        | none => acc
        | some v =>
          if g.Ymin ≤ y ∧ y ≤ g.Ymax ∧ velmin ≤ v ∧ v ≤ velmax then
            if (x : ℚ) < g.xcentre then
              (acc.1 ++ [|v - vsys|], acc.2.1 + (v - vsys), acc.2.2)
            else (acc.1 ++ [|v - vsys|], acc.2.1, acc.2.2 + (v - vsys))
          else acc)
      ([], 0, 0)

/-- The median absolute deviation from `vsys` along the line at angle `p`. -/
def medianDev (g : GuessGrid) (tanD : ℚ → ℚ) (vsys velmin velmax : ℚ)
    (p : ℚ) : ℚ :=
  medianQ (paScan g tanD vsys velmin velmax p).1

/-- The candidate angles swept by the `while (p<180)` loop: 0°, 0.5°, …,
179.5°. -/
def paCandidates : List ℚ := (List.range 360).map (fun i : ℕ => (i : ℚ) / 2)

/-- The selection loop of algorithm 1: track `(maxdev, bestpa, vl, vr)`,
replacing them whenever the current angle's median deviation strictly
exceeds the running maximum and is finite (`fabs(median) < 1E16`). -/
def paBestScan (g : GuessGrid) (tanD : ℚ → ℚ) (vsys velmin velmax : ℚ) :
    ℚ × ℚ × ℚ × ℚ :=
  paCandidates.foldl
    (fun acc p =>
      if medianQ (paScan g tanD vsys velmin velmax p).1 > acc.1 ∧
          |medianQ (paScan g tanD vsys velmin velmax p).1| < 10 ^ 16 then
        (medianQ (paScan g tanD vsys velmin velmax p).1, p,
          (paScan g tanD vsys velmin velmax p).2.1,
          (paScan g tanD vsys velmin velmax p).2.2)
      else acc)
    (0, 0, 0, 0)

/-- The final rotation to BBarolo's position-angle convention
(`paramguess.cpp:210-218`), selecting between the two representatives of
`bestpa + 90 (mod 180)` by comparing the summed deviations of the two
halves. -/
def adjustPA (bestpa vl vr : ℚ) : ℚ :=
  if vl < vr then
    (if bestpa < 90 then 270 + bestpa else 90 + bestpa)
  else
    (if bestpa < 90 then 90 + bestpa else bestpa - 90)

/-- `findPositionAngle(1)`: the position angle selected by algorithm 1. -/
def findPositionAngle1 (g : GuessGrid) (tanD : ℚ → ℚ)
    (vsys velmin velmax : ℚ) : ℚ :=
  adjustPA (paBestScan g tanD vsys velmin velmax).2.1
    (paBestScan g tanD vsys velmin velmax).2.2.1
    (paBestScan g tanD vsys velmin velmax).2.2.2

theorem fold_vdev_bounds {α : Type} (P : ℚ → Prop) (l : List α)
    (op : (List ℚ × ℚ × ℚ) → α → (List ℚ × ℚ × ℚ))
    (hop : ∀ b a, (∀ x ∈ b.1, P x) → ∀ x ∈ (op b a).1, P x) :
    ∀ x ∈ (l.foldl op ([], 0, 0)).1, P x := by
  have key : ∀ (l2 : List α) (init : List ℚ × ℚ × ℚ), (∀ x ∈ init.1, P x) →
      ∀ x ∈ (l2.foldl op init).1, P x := by
    intro l2
    induction l2 with
    | nil =>
      intro init h
      exact h
    | cons a as ih =>
      intro init h
      rw [List.foldl_cons]
      exact ih _ (hop init a h)
  exact key l ([], 0, 0) (fun x hx => absurd hx (List.not_mem_nil x))

theorem paScan_vdev_bounds (g : GuessGrid) (tanD : ℚ → ℚ)
    (vsys velmin velmax : ℚ) (p : ℚ) (B : ℚ)
    (hB : ∀ v : ℚ, velmin ≤ v → v ≤ velmax → |v - vsys| ≤ B) :
    ∀ x ∈ (paScan g tanD vsys velmin velmax p).1, 0 ≤ x ∧ x ≤ B := by
  have hmem : ∀ (b : List ℚ × ℚ × ℚ) (v : ℚ),
      velmin ≤ v → v ≤ velmax → (∀ x ∈ b.1, 0 ≤ x ∧ x ≤ B) →
      ∀ x ∈ b.1 ++ [|v - vsys|], 0 ≤ x ∧ x ≤ B := by
    intro b v hv1 hv2 hb x hx
    rcases List.mem_append.mp hx with hx1 | hx1
    · exact hb x hx1
    · rw [List.mem_singleton] at hx1
      subst hx1
      exact ⟨abs_nonneg _, hB v hv1 hv2⟩
  unfold paScan
  split_ifs <;>
    refine fold_vdev_bounds _ _ _ ?_ <;>
    intro b a hb <;>
    dsimp only
  · cases hV : g.Vemap (lroundQ g.xcentre) a with
    | none => exact hb
    | some v =>
      dsimp only
      split_ifs with h1 h2
      · exact hmem b v h1.2.2.1 h1.2.2.2 hb
      · exact hmem b v h1.2.2.1 h1.2.2.2 hb
      · exact hb
  · cases hV : g.Vemap
        (lroundQ (1 / tanD p * ((a : ℚ) - g.ycentre) + g.xcentre)) a with
    | none => exact hb
    | some v =>
      dsimp only
      split_ifs with h1 h2
      · exact hmem b v h1.2.2.1 h1.2.2.2 hb
      · exact hmem b v h1.2.2.1 h1.2.2.2 hb
      · exact hb
  · cases hV : g.Vemap a (lroundQ (tanD p * ((a : ℚ) - g.xcentre) + g.ycentre)) with
    | none => exact hb
    | some v =>
      dsimp only
      split_ifs with h1 h2
      · exact hmem b v h1.2.2.1 h1.2.2.2 hb
      · exact hmem b v h1.2.2.1 h1.2.2.2 hb
      · exact hb

theorem medianDev_nonneg (g : GuessGrid) (tanD : ℚ → ℚ)
    (vsys velmin velmax : ℚ) (p : ℚ) (B : ℚ)
    (hB : ∀ v : ℚ, velmin ≤ v → v ≤ velmax → |v - vsys| ≤ B) :
    0 ≤ medianDev g tanD vsys velmin velmax p :=
  medianQ_nonneg _ (fun x hx =>
    (paScan_vdev_bounds g tanD vsys velmin velmax p B hB x hx).1)

theorem medianDev_le (g : GuessGrid) (tanD : ℚ → ℚ)
    (vsys velmin velmax : ℚ) (p : ℚ) (B : ℚ) (hB0 : 0 ≤ B)
    (hB : ∀ v : ℚ, velmin ≤ v → v ≤ velmax → |v - vsys| ≤ B) :
    medianDev g tanD vsys velmin velmax p ≤ B :=
  medianQ_le _ B hB0 (fun x hx =>
    (paScan_vdev_bounds g tanD vsys velmin velmax p B hB x hx).2)

/-- The generic maximum-tracking fold of the PA selection loop. -/
def bestFold (m : ℚ → ℚ) (s : ℚ → ℚ × ℚ) (l : List ℚ)
    (acc : ℚ × ℚ × ℚ × ℚ) : ℚ × ℚ × ℚ × ℚ :=
  l.foldl (fun acc p =>
    if m p > acc.1 ∧ |m p| < 10 ^ 16 then (m p, p, s p) else acc) acc

theorem bestFold_inv (m : ℚ → ℚ) (s : ℚ → ℚ × ℚ) (l : List ℚ) :
    ∀ acc : ℚ × ℚ × ℚ × ℚ, (∀ p ∈ l, m p < 10 ^ 16) → (∀ p ∈ l, 0 ≤ m p) →
      (∀ q ∈ l, m q ≤ (bestFold m s l acc).1) ∧
      acc.1 ≤ (bestFold m s l acc).1 ∧
      (bestFold m s l acc = acc ∨
        ((bestFold m s l acc).2.1 ∈ l ∧
          (bestFold m s l acc).1 = m ((bestFold m s l acc).2.1) ∧
          (bestFold m s l acc).2.2 = s ((bestFold m s l acc).2.1))) := by
  induction l with
  | nil =>
    intro acc hbig hnn
    exact ⟨fun q hq => absurd hq (List.not_mem_nil q), le_refl _, Or.inl rfl⟩
  | cons p ps ih =>
    intro acc hbig hnn
    have hbig' : ∀ q ∈ ps, m q < 10 ^ 16 :=
      fun q hq => hbig q (List.mem_cons.mpr (Or.inr hq))
    have hnn' : ∀ q ∈ ps, 0 ≤ m q :=
      fun q hq => hnn q (List.mem_cons.mpr (Or.inr hq))
    have hguard : |m p| < 10 ^ 16 := by
      rw [abs_of_nonneg (hnn p (List.mem_cons_self p ps))]
      exact hbig p (List.mem_cons_self p ps)
    by_cases hc : m p > acc.1
    · have heq : bestFold m s (p :: ps) acc = bestFold m s ps (m p, p, s p) := by
        unfold bestFold
        rw [List.foldl_cons, if_pos ⟨hc, hguard⟩]
      obtain ⟨h1, h2, h3⟩ := ih (m p, p, s p) hbig' hnn'
      rw [heq]
      refine ⟨?_, ?_, ?_⟩
      · intro q hq
        rcases List.mem_cons.mp hq with hq1 | hq1
        · subst hq1
          exact le_trans h2 (le_refl _)
        · exact h1 q hq1
      · exact le_trans (le_of_lt hc) h2
      · rcases h3 with h3 | ⟨h3a, h3b, h3c⟩
        · rw [h3]
          exact Or.inr ⟨List.mem_cons_self p ps, rfl, rfl⟩
        · exact Or.inr ⟨List.mem_cons.mpr (Or.inr h3a), h3b, h3c⟩
    · have heq : bestFold m s (p :: ps) acc = bestFold m s ps acc := by
        unfold bestFold
        rw [List.foldl_cons, if_neg (fun hh => hc hh.1)]
      obtain ⟨h1, h2, h3⟩ := ih acc hbig' hnn'
      rw [heq]
      refine ⟨?_, h2, ?_⟩
      · intro q hq
        rcases List.mem_cons.mp hq with hq1 | hq1
        · subst hq1
          exact le_trans (not_lt.mp hc) h2
        · exact h1 q hq1
      · rcases h3 with h3 | ⟨h3a, h3b, h3c⟩
        · exact Or.inl h3
        · exact Or.inr ⟨List.mem_cons.mpr (Or.inr h3a), h3b, h3c⟩

theorem adjustPA_mod180 (b vl vr : ℚ) :
    adjustPA b vl vr = b + 90 ∨ adjustPA b vl vr = b + 270 ∨
      adjustPA b vl vr = b - 90 := by
  unfold adjustPA
  split_ifs
  · right
    left
    ring
  · left
    ring
  · left
    ring
  · right
    right
    ring

theorem adjustPA_sign_only (b vl vr vl2 vr2 : ℚ) (h : vl2 < vr2 ↔ vl < vr) :
    adjustPA b vl2 vr2 = adjustPA b vl vr := by
  unfold adjustPA
  by_cases hc : vl < vr
  · rw [if_pos hc, if_pos (h.mpr hc)]
  · rw [if_neg hc, if_neg (fun hh => hc (h.mp hh))]

/-- C1: provided every candidate's median deviation is below the code's
`1E16` finiteness cutoff and some candidate has a positive median
deviation, algorithm 1 of `findPositionAngle` selects as `bestpa` a
candidate angle (swept over `[0°,180°)` in 0.5° steps) maximising the
median of the absolute deviations `|V - vsys|` of the velocity-field
samples along the line through the centre, records that angle's half-line
sums of `V - vsys`, and returns the representative of
`bestpa + 90 (mod 180)` chosen purely by the sign comparison `vl < vr` of
those two sums. -/
theorem findPositionAngle_argmax_median (g : GuessGrid) (tanD : ℚ → ℚ)
    (vsys velmin velmax : ℚ)
    (hbig : ∀ p ∈ paCandidates, medianDev g tanD vsys velmin velmax p < 10 ^ 16)
    (hpos : ∃ p ∈ paCandidates, 0 < medianDev g tanD vsys velmin velmax p) :
    (paBestScan g tanD vsys velmin velmax).2.1 ∈ paCandidates ∧
    (∀ q ∈ paCandidates, medianDev g tanD vsys velmin velmax q ≤
      medianDev g tanD vsys velmin velmax
        (paBestScan g tanD vsys velmin velmax).2.1) ∧
    (paBestScan g tanD vsys velmin velmax).1 =
      medianDev g tanD vsys velmin velmax
        (paBestScan g tanD vsys velmin velmax).2.1 ∧
    (paBestScan g tanD vsys velmin velmax).2.2 =
      ((paScan g tanD vsys velmin velmax
          (paBestScan g tanD vsys velmin velmax).2.1).2.1,
       (paScan g tanD vsys velmin velmax
          (paBestScan g tanD vsys velmin velmax).2.1).2.2) ∧
    findPositionAngle1 g tanD vsys velmin velmax =
      adjustPA (paBestScan g tanD vsys velmin velmax).2.1
        (paScan g tanD vsys velmin velmax
          (paBestScan g tanD vsys velmin velmax).2.1).2.1
        (paScan g tanD vsys velmin velmax
          (paBestScan g tanD vsys velmin velmax).2.1).2.2 ∧
    (findPositionAngle1 g tanD vsys velmin velmax =
        (paBestScan g tanD vsys velmin velmax).2.1 + 90 ∨
      findPositionAngle1 g tanD vsys velmin velmax =
        (paBestScan g tanD vsys velmin velmax).2.1 + 270 ∨
      findPositionAngle1 g tanD vsys velmin velmax =
        (paBestScan g tanD vsys velmin velmax).2.1 - 90) ∧
    ∀ vl2 vr2 : ℚ,
      (vl2 < vr2 ↔
        (paScan g tanD vsys velmin velmax
          (paBestScan g tanD vsys velmin velmax).2.1).2.1 <
        (paScan g tanD vsys velmin velmax
          (paBestScan g tanD vsys velmin velmax).2.1).2.2) →
      adjustPA (paBestScan g tanD vsys velmin velmax).2.1 vl2 vr2 =
        findPositionAngle1 g tanD vsys velmin velmax := by
  have hnn : ∀ p ∈ paCandidates, 0 ≤ medianDev g tanD vsys velmin velmax p := by
    intro p hp
    refine medianDev_nonneg g tanD vsys velmin velmax p
      (|velmin - vsys| ⊔ |velmax - vsys|) ?_
    intro v h1 h2
    rw [abs_le]
    constructor
    · have ha := neg_abs_le (velmin - vsys)
      have h3 : |velmin - vsys| ≤ |velmin - vsys| ⊔ |velmax - vsys| := le_max_left _ _
      linarith
    · have ha := le_abs_self (velmax - vsys)
      have h4 : |velmax - vsys| ≤ |velmin - vsys| ⊔ |velmax - vsys| := le_max_right _ _
      linarith
  have hinv := bestFold_inv (fun p => medianDev g tanD vsys velmin velmax p)
    (fun p => ((paScan g tanD vsys velmin velmax p).2.1,
      (paScan g tanD vsys velmin velmax p).2.2))
    paCandidates (0, 0, 0, 0) hbig hnn
  have hfold : bestFold (fun p => medianDev g tanD vsys velmin velmax p)
      (fun p => ((paScan g tanD vsys velmin velmax p).2.1,
        (paScan g tanD vsys velmin velmax p).2.2)) paCandidates (0, 0, 0, 0) =
      paBestScan g tanD vsys velmin velmax := rfl
  rw [hfold] at hinv
  obtain ⟨hub, hacc, hdisj⟩ := hinv
  obtain ⟨p0, hp0m, hp0⟩ := hpos
  rcases hdisj with h | ⟨hmem, hval, hsum⟩
  · exfalso
    have hle := hub p0 hp0m
    rw [h] at hle
    exact absurd (lt_of_lt_of_le hp0 hle) (lt_irrefl 0)
  have hE : findPositionAngle1 g tanD vsys velmin velmax =
      adjustPA (paBestScan g tanD vsys velmin velmax).2.1
        (paScan g tanD vsys velmin velmax
          (paBestScan g tanD vsys velmin velmax).2.1).2.1
        (paScan g tanD vsys velmin velmax
          (paBestScan g tanD vsys velmin velmax).2.1).2.2 := by
    unfold findPositionAngle1
    rw [show (paBestScan g tanD vsys velmin velmax).2.2.1 =
        (paScan g tanD vsys velmin velmax
          (paBestScan g tanD vsys velmin velmax).2.1).2.1 from by rw [hsum],
      show (paBestScan g tanD vsys velmin velmax).2.2.2 =
        (paScan g tanD vsys velmin velmax
          (paBestScan g tanD vsys velmin velmax).2.1).2.2 from by rw [hsum]]
  refine ⟨hmem, fun q hq => le_trans (hub q hq) (le_of_eq hval), hval, hsum, hE,
    ?_, ?_⟩
  · rw [hE]
    exact adjustPA_mod180 _ _ _
  · intro vl2 vr2 hh
    rw [hE]
    exact adjustPA_sign_only _ _ _ _ _ hh

/-- The one-pixel velocity field used to witness C1: `V(0,0) = 10`, all
other pixels blank; centre `(0,0)`, `vsys = 0`, velocity range
`[-100,100]`; the machine tangent is instantiated with the zero function. -/
def paWitnessGrid : GuessGrid :=
  { Vemap := fun x y => if x = 0 ∧ y = 0 then some 10 else none,
    Xmin := 0, Xmax := 0, Ymin := 0, Ymax := 0, xcentre := 0, ycentre := 0 }

theorem paWitness_median0 :
    medianDev paWitnessGrid (fun _ => 0) 0 (-100) 100 0 = 10 := by
  have h0 : lroundQ ((fun _ : ℚ => (0:ℚ)) 0 * (((0:ℤ) : ℚ) - 0) + 0) = 0 := by
    rw [show (fun _ : ℚ => (0:ℚ)) 0 * (((0:ℤ) : ℚ) - 0) + 0 = 0 by norm_num]
    exact lroundQ_eq_of_nonneg _ _ (by norm_num) (by norm_num) (by norm_num)
  unfold medianDev paScan
  rw [if_neg (by norm_num)]
  simp only [paWitnessGrid]
  rw [show intRange (0:ℤ) 0 = [0] from by decide]
  simp only [List.foldl_cons, List.foldl_nil]
  rw [h0]
  norm_num [medianQ, sortQ, insQ]

/-- C1 witness: on the one-pixel field every candidate's median deviation
is 10 (in particular below `1E16`) and positive at `p = 0`, and the
selected angle maximises the median deviation. -/
theorem findPositionAngle_argmax_median_witness :
    (∀ p ∈ paCandidates, medianDev paWitnessGrid (fun _ => 0) 0 (-100) 100 p < 10 ^ 16) ∧
    (∃ p ∈ paCandidates, 0 < medianDev paWitnessGrid (fun _ => 0) 0 (-100) 100 p) ∧
    (∀ q ∈ paCandidates, medianDev paWitnessGrid (fun _ => 0) 0 (-100) 100 q ≤
      medianDev paWitnessGrid (fun _ => 0) 0 (-100) 100
        (paBestScan paWitnessGrid (fun _ => 0) 0 (-100) 100).2.1) := by
  have hbig : ∀ p ∈ paCandidates,
      medianDev paWitnessGrid (fun _ => 0) 0 (-100) 100 p < 10 ^ 16 := by
    intro p hp
    have hle := medianDev_le paWitnessGrid (fun _ => 0) 0 (-100) 100 p 100
      (by norm_num)
      (fun v h1 h2 => by
        rw [abs_le]
        constructor <;> linarith)
    linarith
  have hpos : ∃ p ∈ paCandidates,
      0 < medianDev paWitnessGrid (fun _ => 0) 0 (-100) 100 p := by
    refine ⟨0, ?_, ?_⟩
    · rw [paCandidates]
      exact List.mem_map.mpr
        ⟨0, List.mem_range.mpr (by norm_num : (0:ℕ) < 360),
          (by norm_num : ((0:ℕ) : ℚ) / 2 = 0)⟩
    · rw [paWitness_median0]
      norm_num
  exact ⟨hbig, hpos,
    (findPositionAngle_argmax_median paWitnessGrid (fun _ => 0) 0 (-100) 100
      hbig hpos).2.1⟩

namespace NelderMead

/-- Read an entry of a rational vector, defaulting to `0` (array access `v[i]`). -/
def qget (l : List ℚ) (i : ℕ) : ℚ := l.getD i 0

/-- Read the matrix entry `p[i][j]` of the simplex. -/
def entry (p : List (List ℚ)) (i j : ℕ) : ℚ := (p.getD i []).getD j 0

/-- Overwrite the first `n` entries of `row` with those of `repl`
(the loop `for (j=0; j<n; j++) row[j] = repl[j]`). -/
def setPrefix (row repl : List ℚ) (n : ℕ) : List ℚ :=
  (List.range n).foldl (fun r j => r.set j (repl.getD j 0)) row

/-- Swap two entries of a rational vector (`std::swap(l[i], l[j])`). -/
def swapAt (l : List ℚ) (i j : ℕ) : List ℚ :=
  (l.set i (l.getD j 0)).set j (l.getD i 0)

/-- State of `ParamGuess::fitSimplex`: the simplex rows `p`, the objective
values `y`, the column sums `psum` and the evaluation counter `nfunc`. -/
structure NMState where
  p : List (List ℚ)
  y : List ℚ
  psum : List ℚ
  nfunc : ℤ

/-- The state entering the main loop: `y[i] = func(p[i])` for the
`mpts = ndim+1` rows, `psum[j] = sum_i p[i][j]`, `nfunc = 0`
(paramguess.cpp:487-503). -/
def initNM (ndim : ℕ) (f : List ℚ → ℚ) (p : List (List ℚ)) : NMState :=
  { p := p
    y := (List.range (ndim + 1)).map
      (fun i : ℕ => f ((List.range ndim).map (fun j : ℕ => entry p i j)))
    psum := (List.range ndim).map
      (fun j : ℕ => ((List.range (ndim + 1)).map (fun i : ℕ => entry p i j)).sum)
    nfunc := 0 }

/-- One pass of the index scan (paramguess.cpp:510-517): update
`(ilo, ihi, inhi)` at row `i`. -/
def idxStep (y : List ℚ) (acc : ℕ × ℕ × ℕ) (i : ℕ) : ℕ × ℕ × ℕ :=
  (if qget y i ≤ qget y acc.1 then i else acc.1,
   if qget y acc.2.1 < qget y i then (i, acc.2.1)
   else if qget y acc.2.2 < qget y i ∧ i ≠ acc.2.1 then (acc.2.1, i)
   else (acc.2.1, acc.2.2))

/-- The indices of the lowest, highest and second-highest vertices
(paramguess.cpp:508-517): seeded from rows 0 and 1, then one scan over all
`mpts` rows. -/
def selectIdx (y : List ℚ) (mpts : ℕ) : ℕ × ℕ × ℕ :=
  (List.range mpts).foldl (idxStep y)
    (if qget y 1 < qget y 0 then (0, 0, 1) else (0, 1, 0))

/-- The fractional tolerance
`rtol = 2|y[ihi]-y[ilo]| / (|y[ihi]|+|y[ilo]|+TINY)` with `TINY = 1e-10`
(paramguess.cpp:519). -/
def rtolNM (ndim : ℕ) (s : NMState) : ℚ :=
  let idx := selectIdx s.y (ndim + 1)
  2 * |qget s.y idx.2.1 - qget s.y idx.1| /
    (|qget s.y idx.2.1| + |qget s.y idx.1| + 1 / 10 ^ 10)

/-- The convergence test `rtol < tol` with `tol = 1e-3` (paramguess.cpp:521). -/
def convNM (ndim : ℕ) (s : NMState) : Prop := rtolNM ndim s < 1 / 1000

instance (ndim : ℕ) (s : NMState) : Decidable (convNM ndim s) := by
  unfold convNM; infer_instance

/-- On success the lowest vertex is swapped into slot 0
(paramguess.cpp:522-526). -/
def finalizeNM (ndim : ℕ) (s : NMState) : NMState :=
  let ilo := (selectIdx s.y (ndim + 1)).1
  { s with
    y := swapAt s.y 0 ilo
    p := (List.range ndim).foldl
      (fun q i =>
        let a := entry q 0 i
        let b := entry q ilo i
        (q.set 0 ((q.getD 0 []).set i b)).set ilo ((q.getD ilo []).set i a))
      s.p }

/-- One trial move (the thrice-inlined block paramguess.cpp:539-551 etc.):
`ptry[j] = psum[j]*fac1 - p[ihi][j]*fac2` with `fac1 = (1-fac)/ndim`,
`fac2 = fac1 - fac`; if `ytry < y[ihi]` the highest vertex is replaced and
`psum` adjusted. Returns `ytry` and the new state. -/
def amotry (ndim : ℕ) (f : List ℚ → ℚ) (ihi : ℕ) (fac : ℚ) (s : NMState) :
    ℚ × NMState :=
  let fac1 : ℚ := (1 - fac) / (ndim : ℚ)
  let fac2 : ℚ := fac1 - fac
  let ptry : List ℚ := (List.range ndim).map
    (fun j : ℕ => qget s.psum j * fac1 - entry s.p ihi j * fac2)
  let ytry := f ptry
  if ytry < qget s.y ihi then
    (ytry,
     { s with
       y := s.y.set ihi ytry
       psum := (List.range ndim).map
         (fun j : ℕ => qget s.psum j + qget ptry j - entry s.p ihi j)
       p := s.p.set ihi (setPrefix (s.p.getD ihi []) ptry ndim) })
  else (ytry, s)

/-- The shrink step (paramguess.cpp:582-597): every row but `ilo` is pulled
halfway towards row `ilo` and re-evaluated, `nfunc += ndim`, and `psum` is
recomputed as the column sums. -/
def shrinkNM (ndim : ℕ) (f : List ℚ → ℚ) (ilo : ℕ) (s : NMState) : NMState :=
  let pr := (List.range (ndim + 1)).foldl
    (fun (q : List (List ℚ) × List ℚ) (i : ℕ) =>
      if i = ilo then q else
        let nr := (List.range ndim).map
          (fun j : ℕ => (entry q.1 i j + entry q.1 ilo j) / 2)
        (q.1.set i (setPrefix (q.1.getD i []) nr ndim), q.2.set i (f nr)))
    (s.p, s.y)
  { p := pr.1
    y := pr.2
    psum := (List.range ndim).map
      (fun j : ℕ => ((List.range (ndim + 1)).map (fun i : ℕ => entry pr.1 i j)).sum)
    nfunc := s.nfunc + (ndim : ℤ) }

/-- One non-terminating iteration of the main loop (paramguess.cpp:537-600):
`nfunc += 2`, a reflection; then either an expansion (`ytry <= y[ilo]`), or
a contraction possibly followed by a shrink (`ytry >= y[inhi]`), or
`--nfunc`. -/
def stepNM (ndim : ℕ) (f : List ℚ → ℚ) (s : NMState) : NMState :=
  let idx := selectIdx s.y (ndim + 1)
  let ilo := idx.1
  let ihi := idx.2.1
  let inhi := idx.2.2
  let t1 := amotry ndim f ihi (-1) { s with nfunc := s.nfunc + 2 }
  let ytry := t1.1
  let s1 := t1.2
  if ytry ≤ qget s1.y ilo then
    (amotry ndim f ihi 2 s1).2
  else if qget s1.y inhi ≤ ytry then
    let ysave := qget s1.y ihi
    let t2 := amotry ndim f ihi (1/2) s1
    if ysave ≤ t2.1 then shrinkNM ndim f ilo t2.2 else t2.2
  else
    { s1 with nfunc := s1.nfunc - 1 }

/-- `NMAX = 5000` (paramguess.cpp:483). -/
def NMAX : ℤ := 5000

/-- The main loop (paramguess.cpp:506-601), with explicit fuel: stop with
success if `rtol < tol`, with failure if `nfunc >= NMAX`, else iterate. -/
def runNM (ndim : ℕ) (f : List ℚ → ℚ) : ℕ → NMState → Option (Bool × NMState)
  | 0, _ => none
  | fuel + 1, s =>
    if convNM ndim s then some (true, finalizeNM ndim s)
    else if NMAX ≤ s.nfunc then some (false, s)
    else runNM ndim f fuel (stepNM ndim f s)

/-- `ParamGuess::fitSimplex` (paramguess.cpp:480-604): 5002 units of fuel
always suffice, as established below. -/
def fitSimplex (ndim : ℕ) (f : List ℚ → ℚ) (p : List (List ℚ)) :
    Option (Bool × NMState) :=
  runNM ndim f 5002 (initNM ndim f p)

theorem amotry_nfunc (ndim : ℕ) (f : List ℚ → ℚ) (ihi : ℕ) (fac : ℚ)
    (s : NMState) : ((amotry ndim f ihi fac s).2).nfunc = s.nfunc := by
  unfold amotry
  dsimp only
  split_ifs <;> rfl

theorem shrink_nfunc (ndim : ℕ) (f : List ℚ → ℚ) (ilo : ℕ) (s : NMState) :
    (shrinkNM ndim f ilo s).nfunc = s.nfunc + (ndim : ℤ) := rfl

/-- Every iteration of the loop advances the evaluation counter by at least
one: by exactly 2 on a reflection kept or expanded or contracted, by
`2 + ndim` on a shrink, and by 1 when `--nfunc` refunds the skipped second
evaluation. -/
theorem stepNM_nfunc (ndim : ℕ) (f : List ℚ → ℚ) (s : NMState) :
    s.nfunc + 1 ≤ (stepNM ndim f s).nfunc := by
  unfold stepNM
  dsimp only
  split_ifs <;>
    simp only [amotry_nfunc, shrink_nfunc] <;> omega

theorem runNM_isSome (ndim : ℕ) (f : List ℚ → ℚ) :
    ∀ (fuel : ℕ) (s : NMState), NMAX ≤ s.nfunc + fuel →
      (runNM ndim f (fuel + 1) s).isSome := by
  intro fuel
  induction fuel with
  | zero =>
    intro s hs
    simp only [Nat.cast_zero, add_zero] at hs
    unfold runNM
    split_ifs <;> simp_all
  | succ n ih =>
    intro s hs
    show (runNM ndim f (n + 1 + 1) s).isSome
    unfold runNM
    split_ifs with h1 h2
    · rfl
    · rfl
    · exact ih (stepNM ndim f s) (by
        have := stepNM_nfunc ndim f s
        push_cast at hs ⊢
        omega)

theorem runNM_char (ndim : ℕ) (f : List ℚ → ℚ) :
    ∀ (fuel : ℕ) (s : NMState) (b : Bool) (s' : NMState),
      runNM ndim f fuel s = some (b, s') →
      ∃ k : ℕ, k + 1 ≤ fuel ∧
        (∀ j < k, ¬ convNM ndim ((stepNM ndim f)^[j] s) ∧
          ((stepNM ndim f)^[j] s).nfunc < NMAX) ∧
        (convNM ndim ((stepNM ndim f)^[k] s) ∨
          NMAX ≤ ((stepNM ndim f)^[k] s).nfunc) ∧
        (b = true ↔ convNM ndim ((stepNM ndim f)^[k] s)) := by
  intro fuel
  induction fuel with
  | zero => intro s b s' h; exact absurd h (by simp [runNM])
  | succ n ih =>
    intro s b s' h
    unfold runNM at h
    split_ifs at h with h1 h2
    · refine ⟨0, by omega, fun j hj => absurd hj (by omega), ?_, ?_⟩
      · simpa using Or.inl h1
      · simp only [Function.iterate_zero, id]
        injection h with h'
        injection h' with hb _
        simp [← hb, h1]
    · refine ⟨0, by omega, fun j hj => absurd hj (by omega), ?_, ?_⟩
      · simpa using Or.inr h2
      · simp only [Function.iterate_zero, id]
        injection h with h'
        injection h' with hb _
        simp [← hb, h1]
    · obtain ⟨k, hk, hpre, hstop, hflag⟩ := ih (stepNM ndim f s) b s' h
      refine ⟨k + 1, by omega, ?_, ?_, ?_⟩
      · intro j hj
        match j with
        | 0 =>
          simp only [Function.iterate_zero, id]
          exact ⟨h1, by omega⟩
        | j + 1 =>
          rw [Function.iterate_succ_apply]
          exact hpre j (by omega)
      · rw [Function.iterate_succ_apply]
        exact hstop
      · rw [Function.iterate_succ_apply]
        exact hflag

/-- C4: for every objective `f`, dimension and initial simplex, `fitSimplex`
terminates within its fuel, stopping at the first iterate `k` (at most 5001
loop iterations) at which `rtol < 1/1000` or the counter has reached
`NMAX = 5000`; it returns success exactly when the convergence criterion
holds at that first stopping point — in particular failure whenever the
evaluation cap is hit with the criterion still false. -/
theorem fitSimplex_terminates_and_flags (ndim : ℕ) (f : List ℚ → ℚ)
    (p : List (List ℚ)) :
    ∃ (b : Bool) (s' : NMState), fitSimplex ndim f p = some (b, s') ∧
      ∃ k : ℕ, k ≤ 5001 ∧
        (∀ j < k, ¬ convNM ndim ((stepNM ndim f)^[j] (initNM ndim f p)) ∧
          ((stepNM ndim f)^[j] (initNM ndim f p)).nfunc < NMAX) ∧
        (convNM ndim ((stepNM ndim f)^[k] (initNM ndim f p)) ∨
          NMAX ≤ ((stepNM ndim f)^[k] (initNM ndim f p)).nfunc) ∧
        (b = true ↔ convNM ndim ((stepNM ndim f)^[k] (initNM ndim f p))) := by
  have hsome : (runNM ndim f 5002 (initNM ndim f p)).isSome := by
    have : (runNM ndim f (5001 + 1) (initNM ndim f p)).isSome :=
      runNM_isSome ndim f 5001 (initNM ndim f p) (by
        show NMAX ≤ (initNM ndim f p).nfunc + (5001 : ℕ)
        simp [initNM, NMAX])
    simpa using this
  obtain ⟨r, hr⟩ := Option.isSome_iff_exists.mp hsome
  obtain ⟨b, s'⟩ := r
  obtain ⟨k, hk, hpre, hstop, hflag⟩ := runNM_char ndim f 5002 (initNM ndim f p) b s' hr
  exact ⟨b, s', hr, k, by omega, hpre, hstop, hflag⟩

end NelderMead
